import Mathlib

/-!
Verification of the detd reservation core (manager.py, mapping.py,
scheduler.py, devices/intel_i226.py) against its natural-language
specification.

The Python classes are shallowly embedded as Lean structures and pure
functions.  Machine integers are modelled as Nat/Int; Python float values
(frame length computations) are modelled as exact rationals; Python
`int(x)` truncation toward zero is `pyInt`; code that raises exceptions
is modelled with `Option` (`none` = the call raises).  Python's stable
ascending `list.sort` (which compares slots by their `start` field via
`Slot.__lt__`) is modelled by a stable insertion sort `sortSlots`.
-/

namespace Detd

def s_to_ns : ℕ := 1000 * 1000 * 1000

def Bytes_to_bits : ℕ := 8

/-- Network interface together with the fields of its bound device record
that the manager reads (`device.rate`, `device.num_tx_queues`;
`device.best_effort_tx_queues` is `list(range(0, num_tx_queues))`). -/
structure Interface where
  name : String
  rate : ℕ
  num_tx_queues : ℕ
deriving DecidableEq, Repr

structure StreamConfiguration where
  addr : String
  vid : ℕ
  pcp : ℕ
  txoffset : ℕ
  base_time : Option ℕ := none
deriving DecidableEq, Repr

structure TrafficSpecification where
  interval : ℕ
  size : ℕ
deriving DecidableEq, Repr

structure Configuration where
  interface : Interface
  stream : StreamConfiguration
  traffic : TrafficSpecification
deriving DecidableEq, Repr

/-- Configuration.__init__: raises TypeError iff stream.txoffset > traffic.interval,
otherwise stores the three components. -/
def Configuration.make (interface : Interface) (stream : StreamConfiguration)
    (traffic : TrafficSpecification) : Option Configuration :=
  if stream.txoffset > traffic.interval then none
  else some ⟨interface, stream, traffic⟩

inductive TrafficType where
  | BEST_EFFORT
  | SCHEDULED
deriving DecidableEq, Repr

/-- Traffic: scheduled traffics carry the stream fields plus the computed
on-wire length and end; the best-effort traffic built by Scheduler.__init__
carries socket_prio, queue and tc.  Fields a given Python object does not
have are kept at their defaults; equality on the `type` field separates the
two shapes, mirroring the dir()-based Traffic.__eq__. -/
structure Traffic where
  type : TrafficType
  interval : ℕ := 0
  size : ℕ := 0
  start : ℕ := 0
  addr : String := ""
  vid : ℕ := 0
  pcp : ℕ := 0
  tc : Option ℕ := none
  length : ℚ := 0
  end_ : ℚ := 0
  socket_prio : Option ℕ := none
  queue : Option ℕ := none
deriving DecidableEq, Repr

/-- Traffic.__init__ with traffic_type == TrafficType.SCHEDULED:
length = (size * Bytes_to_bits) / (rate / s_to_ns), end = start + length,
with rate = config.interface.device.rate.  The Python computation is in
floating point; it is modelled as the exact rational value. -/
def Traffic.scheduledOf (config : Configuration) : Traffic :=
  let rate : ℚ := config.interface.rate
  let length : ℚ := ((config.traffic.size * Bytes_to_bits : ℕ) : ℚ) / (rate / (s_to_ns : ℚ))
  { type := .SCHEDULED
    interval := config.traffic.interval
    size := config.traffic.size
    start := config.stream.txoffset
    addr := config.stream.addr
    vid := config.stream.vid
    pcp := config.stream.pcp
    tc := none
    length := length
    end_ := (config.stream.txoffset : ℚ) + length }

/-- Python int() applied to a rational value: truncation toward zero. -/
def pyInt (q : ℚ) : ℤ := q.num.tdiv q.den

structure Slot where
  start : ℤ
  end_ : ℤ
  length : ℤ
  traffic : Traffic
deriving DecidableEq, Repr

/-- Slot.__init__: start/end are truncated with int(); length = int(end - start)
computed on the already-truncated values. -/
def Slot.make (start end_ : ℚ) (traffic : Traffic) : Slot :=
  ⟨pyInt start, pyInt end_, pyInt end_ - pyInt start, traffic⟩

structure Schedule where
  slots : List Slot := []
  period : ℕ := 0
deriving DecidableEq, Repr

/-- Stable insertion of a slot into a list: the new slot goes before the first
slot with a strictly larger start, i.e. after all slots with the same start. -/
def insertSlot (s : Slot) : List Slot → List Slot
  | [] => [s]
  | x :: xs => if s.start < x.start then s :: x :: xs else x :: insertSlot s xs

/-- Python's list.sort() under Slot.__lt__ (comparison by start): a stable
ascending sort. -/
def sortSlots (l : List Slot) : List Slot :=
  l.foldl (fun acc s => insertSlot s acc) []

/-- Schedule.add_scheduled_traffic: append a new slot and sort. -/
def Schedule.add_scheduled_traffic (sch : Schedule) (start end_ : ℚ)
    (traffic : Traffic) : Schedule :=
  { sch with slots := sortSlots (sch.slots ++ [Slot.make start end_ traffic]) }

/-- The while-loop of Schedule.add_best_effort_padding: walk the slots keeping
the coverage end `e`; assert e <= slot.start (None models the AssertionError),
record a padding slot for each gap.  Returns the padding slots in generation
order together with the final coverage end. -/
def padWalk (traffic : Traffic) : ℤ → List Slot → Option (List Slot × ℤ)
  | e, [] => some ([], e)
  | e, s :: rest =>
    if e ≤ s.start then
      match padWalk traffic s.end_ rest with
      | none => none
      | some (pads, f) =>
        if e < s.start then some (Slot.make (e : ℚ) ((s.start : ℤ) : ℚ) traffic :: pads, f)
        else some (pads, f)
    else none

/-- Schedule.add_best_effort_padding: walk the slots appending padding slots,
sort the combined list, and append a final best-effort slot up to the period
when the last slot ends before it.  `none` models the AssertionError raised by
the walk and the IndexError of self[-1] on an empty schedule. -/
def Schedule.add_best_effort_padding (sch : Schedule) (traffic : Traffic) :
    Option Schedule :=
  match padWalk traffic 0 sch.slots with
  | none => none
  | some (pads, _) =>
    let sorted := sortSlots (sch.slots ++ pads)
    match sorted.getLast? with
    | none => none
    | some last =>
      if last.end_ < (sch.period : ℤ) then
        some { sch with slots := sorted ++ [Slot.make ((last.end_ : ℤ) : ℚ) ((sch.period : ℕ) : ℚ) traffic] }
      else
        some { sch with slots := sorted }

/-- Schedule.conflicts_with_traffic: best-effort traffic never conflicts; a
scheduled traffic conflicts iff its start or its end falls inside the closed
interval [start, end] of some slot holding scheduled traffic. -/
def Schedule.conflicts_with_traffic (sch : Schedule) (traffic : Traffic) : Bool :=
  if traffic.type = TrafficType.BEST_EFFORT then false
  else
    sch.slots.any fun slot =>
      decide (slot.traffic.type = TrafficType.SCHEDULED ∧
        (((traffic.start : ℚ) ≥ (slot.start : ℚ) ∧ (traffic.start : ℚ) ≤ (slot.end_ : ℚ)) ∨
         (traffic.end_ ≥ (slot.start : ℚ) ∧ traffic.end_ ≤ (slot.end_ : ℚ))))

/-- The loop of Schedule.opens_gate_multiple_times_per_cycle, carrying the
opened_once list and the previous slot's traffic. -/
def opensGateWalk : List Traffic → Option Traffic → List Slot → Bool
  | _, _, [] => false
  | opened_once, previous, s :: rest =>
    let traffic := s.traffic
    if traffic ∈ opened_once then
      if previous = some traffic then opensGateWalk opened_once (some traffic) rest
      else true
    else opensGateWalk (opened_once ++ [traffic]) (some traffic) rest

/-- Schedule.opens_gate_multiple_times_per_cycle. -/
def Schedule.opens_gate_multiple_times_per_cycle (sch : Schedule) : Bool :=
  opensGateWalk [] none sch.slots

/-- The module-level lcm function of manager.py: fold of
abs(lcm * n) // gcd(lcm, n) over the list starting from 1. -/
def lcm (numbers : List ℕ) : ℕ :=
  numbers.foldl (fun l n => l * n / Nat.gcd l n) 1

/-- Mapping (the static mapper of manager.py / MappingFixed of mapping.py). -/
structure Mapping where
  interface : Interface
  best_effort_socket_prio : ℕ
  best_effort_tc : ℕ
  available_socket_prios : List ℕ
  available_tcs : List ℕ
  available_tx_queues : List ℕ
  tc_to_soprio : List ℕ
  soprio_to_pcp : List (ℕ × ℕ)
  tc_to_hwq : List (ℕ × ℕ)
deriving DecidableEq, Repr

/-- Mapping.__init__ for a device with interface.num_tx_queues Tx queues. -/
def Mapping.init (interface : Interface) : Mapping :=
  let n := interface.num_tx_queues
  let tc_to_soprio := 0 :: (List.range (n - 1)).map (fun i => 7 + i)
  { interface := interface
    best_effort_socket_prio := 0
    best_effort_tc := 0
    available_socket_prios := List.range' 7 (n - 1)
    available_tcs := List.range' 1 (n - 1)
    available_tx_queues := List.range' 1 (n - 1)
    tc_to_soprio := tc_to_soprio
    soprio_to_pcp := tc_to_soprio.enum.map (fun p => (p.2, p.1))
    tc_to_hwq := (List.range n).map (fun i => (i, 1)) }

/-- Mapping.assign_soprio_and_map: raises IndexError (none) when the free list
is empty, otherwise pops its head. -/
def Mapping.assign_soprio_and_map (m : Mapping) (pcp : ℕ) : Mapping × Option ℕ :=
  match m.available_socket_prios with
  | [] => (m, none)
  | so :: rest => ({ m with available_socket_prios := rest }, some so)

/-- Mapping.assign_tc_and_map: pops the head of available_tcs. -/
def Mapping.assign_tc_and_map (m : Mapping) (soprio : ℕ) (traffics : List Traffic) :
    Mapping × Option ℕ :=
  match m.available_tcs with
  | [] => (m, none)
  | tc :: rest => ({ m with available_tcs := rest }, some tc)

/-- Mapping.assign_queue_and_map: pops the head of available_tx_queues. -/
def Mapping.assign_queue_and_map (m : Mapping) (tc : ℕ) : Mapping × Option ℕ :=
  match m.available_tx_queues with
  | [] => (m, none)
  | q :: rest => ({ m with available_tx_queues := rest }, some q)

/-- Mapping.assign_and_map: pop a socket prio, then a traffic class, then a tx
queue.  An IndexError raised by a later pop propagates without undoing the
earlier pops; the returned Mapping is the state when the call returns or
raises. -/
def Mapping.assign_and_map (m : Mapping) (pcp : ℕ) (traffics : List Traffic) :
    Mapping × Option (ℕ × ℕ × ℕ) :=
  match m.assign_soprio_and_map pcp with
  | (m1, none) => (m1, none)
  | (m1, some soprio) =>
    match m1.assign_tc_and_map soprio traffics with
    | (m2, none) => (m2, none)
    | (m2, some tc) =>
      match m2.assign_queue_and_map tc with
      | (m3, none) => (m3, none)
      | (m3, some queue) => (m3, some (soprio, tc, queue))

/-- Mapping.unmap_and_free_queue: raises IndexError when tc_to_hwq is a
singleton, otherwise inserts the queue at the head of the free list. -/
def Mapping.unmap_and_free_queue (m : Mapping) (queue : ℕ) : Option Mapping :=
  if m.tc_to_hwq.length = 1 then none
  else some { m with available_tx_queues := queue :: m.available_tx_queues }

/-- Mapping.unmap_and_free_tc: inserts the tc at the head of the free list. -/
def Mapping.unmap_and_free_tc (m : Mapping) (tc soprio : ℕ) : Mapping :=
  { m with available_tcs := tc :: m.available_tcs }

/-- Mapping.unmap_and_free_soprio: inserts the prio at the head of the free list. -/
def Mapping.unmap_and_free_soprio (m : Mapping) (soprio : ℕ) : Mapping :=
  { m with available_socket_prios := soprio :: m.available_socket_prios }

/-- Mapping.unmap_and_free: free queue, then tc, then soprio. -/
def Mapping.unmap_and_free (m : Mapping) (soprio tc queue : ℕ) : Option Mapping :=
  match m.unmap_and_free_queue queue with
  | none => none
  | some m1 => some ((m1.unmap_and_free_tc tc soprio).unmap_and_free_soprio soprio)

structure Scheduler where
  schedule : Schedule
  traffics : List Traffic
deriving DecidableEq, Repr

/-- The distinguished best-effort traffic Scheduler.__init__ builds: socket
prio and tc from the mapping, queue q from the device queue list. -/
def bestEffortTrafficFor (mapping : Mapping) (q : ℕ) : Traffic :=
  { type := .BEST_EFFORT
    socket_prio := some mapping.best_effort_socket_prio
    queue := some q
    tc := some mapping.best_effort_tc }

/-- Scheduler.__init__: empty schedule; the traffics list starts with the
distinguished best-effort traffic, whose queue is
mapping.interface.device.best_effort_tx_queues[0] (IndexError, hence none,
when the device has no queues). -/
def Scheduler.init (mapping : Mapping) : Option Scheduler :=
  match (List.range mapping.interface.num_tx_queues).head? with
  | none => none
  | some q => some ⟨{}, [bestEffortTrafficFor mapping q]⟩

/-- The body of the reschedule loop for one scheduled traffic: add the slots
at offsets start + interval * i for i < n, where n = period / interval (the
while-loop over float i < n runs exactly that often, since the interval of
every scheduled traffic divides the lcm period). -/
def genStep (sch : Schedule) (t : Traffic) : Schedule :=
  (List.range (sch.period / t.interval)).foldl (fun sch2 k =>
    sch2.add_scheduled_traffic ((t.start + t.interval * k : ℕ) : ℚ)
      (((t.start + t.interval * k : ℕ) : ℚ) + t.length) t) sch

/-- Scheduler.reschedule as a function of the traffics list.  `none` models the
exceptions the Python code can raise: IndexError on an empty traffics list,
ZeroDivisionError when a scheduled traffic has interval 0, and the
AssertionError/IndexError of add_best_effort_padding. -/
def Scheduler.reschedule (traffics : List Traffic) : Option Schedule :=
  match traffics with
  | [] => none
  | t0 :: rest =>
    if rest = [] ∧ t0.type = TrafficType.BEST_EFFORT then
      some {}
    else
      let scheduled := traffics.filter (fun t => t.type = TrafficType.SCHEDULED)
      if scheduled.any (fun t => t.interval = 0) then none
      else
        let period := lcm (scheduled.map (fun t => t.interval))
        let gen := scheduled.foldl genStep { slots := [], period := period }
        gen.add_best_effort_padding t0

/-- Scheduler.add: raise ValueError (conflict, state unchanged) when the
traffic conflicts with the schedule, otherwise append it and reschedule.  The
outer `none` models an exception raised inside reschedule. -/
def Scheduler.add (s : Scheduler) (traffic : Traffic) : Option (Scheduler × Option String) :=
  if s.schedule.conflicts_with_traffic traffic then
    some (s, some "Traffic conflicts with existing schedule")
  else
    match Scheduler.reschedule (s.traffics ++ [traffic]) with
    | none => none
    | some sch => some (⟨sch, s.traffics ++ [traffic]⟩, none)

/-- Scheduler.remove: list.remove drops the first equal traffic (ValueError,
hence none, when absent), then reschedule. -/
def Scheduler.remove (s : Scheduler) (traffic : Traffic) : Option Scheduler :=
  if traffic ∈ s.traffics then
    match Scheduler.reschedule (s.traffics.erase traffic) with
    | none => none
    | some sch => some ⟨sch, s.traffics.erase traffic⟩
  else none

/-- IntelI226.supports_schedule: a schedule with no multiple gate opens is
always supported; otherwise it is supported only under the
MappingMultiqueueTrafficClassExclusive mapping with at most 3 traffic classes
(scheduled traffics plus best effort) and at most 4 slots. -/
def IntelI226.supports_schedule (mapping_is_multiqueue_tc_exclusive : Bool)
    (traffics : List Traffic) (schedule : Schedule) : Bool :=
  if ¬ schedule.opens_gate_multiple_times_per_cycle then true
  else if mapping_is_multiqueue_tc_exclusive then
    if traffics.length ≤ 3 ∧ schedule.slots.length ≤ 4 then true else false
  else false

/-- The per-interface state owned by InterfaceManager. -/
structure ManagerState where
  mapping : Mapping
  scheduler : Scheduler
deriving DecidableEq, Repr

inductive TalkerError where
  | resourceExhausted
  | conflict
  | deviceUnsupported
  | systemConfigFailed
deriving DecidableEq, Repr

/-- InterfaceManager.add_talker.  `dev` is device.supports_schedule and
`sysOk` the outcome of SystemConfigurator.setup (an external effect).  The
update of config.stream.base_time touches only the request object, not the
manager state, and is omitted.  The returned state is the state after the call
returns or raises; the outer `none` models the unenumerated exception paths
(an AssertionError inside reschedule, or a failing rollback). -/
def InterfaceManager.add_talker (cfg : Configuration) (dev : Schedule → Bool)
    (sysOk : Bool) (st : ManagerState) : Option (ManagerState × Except TalkerError (String × ℕ)) :=
  match st.mapping.assign_and_map cfg.stream.pcp st.scheduler.traffics with
  | (m1, none) => some ({ st with mapping := m1 }, .error .resourceExhausted)
  | (m1, some (soprio, tc, queue)) =>
    let traffic := { Traffic.scheduledOf cfg with tc := some tc }
    if st.scheduler.schedule.conflicts_with_traffic traffic then
      match m1.unmap_and_free soprio tc queue with
      | none => none
      | some m2 => some ({ st with mapping := m2 }, .error .conflict)
    else
      match Scheduler.reschedule (st.scheduler.traffics ++ [traffic]) with
      | none => none
      | some sch =>
        let scheduler1 : Scheduler := ⟨sch, st.scheduler.traffics ++ [traffic]⟩
        if dev sch then
          if sysOk then
            some (⟨m1, scheduler1⟩,
              .ok (cfg.interface.name ++ "." ++ toString cfg.stream.vid, soprio))
          else
            match scheduler1.remove traffic, m1.unmap_and_free soprio tc queue with
            | some scheduler2, some m2 =>
              some (⟨m2, scheduler2⟩, .error .systemConfigFailed)
            | _, _ => none
        else
          match scheduler1.remove traffic, m1.unmap_and_free soprio tc queue with
          | some scheduler2, some m2 =>
            some (⟨m2, scheduler2⟩, .error .deviceUnsupported)
          | _, _ => none

/-- Scheduler states reachable from construction through successful add and
successful remove of scheduled traffics (the only remove the manager issues). -/
inductive Reachable (mapping : Mapping) : Scheduler → Prop
  | init (s : Scheduler) : Scheduler.init mapping = some s → Reachable mapping s
  | add (s : Scheduler) (t : Traffic) (s2 : Scheduler) :
      Reachable mapping s → Scheduler.add s t = some (s2, none) → Reachable mapping s2
  | remove (s : Scheduler) (t : Traffic) (s2 : Scheduler) :
      Reachable mapping s → t.type = TrafficType.SCHEDULED →
      Scheduler.remove s t = some s2 → Reachable mapping s2

/-- The slots a scheduled traffic generates in one reschedule: replica k is
placed at start + interval * k for k < period / interval. -/
def trafficSlots (period : ℕ) (t : Traffic) : List Slot :=
  (List.range (period / t.interval)).map fun k =>
    Slot.make ((t.start + t.interval * k : ℕ) : ℚ)
      (((t.start + t.interval * k : ℕ) : ℚ) + t.length) t

/-- The slot list `l` tiles the interval from `a` to `b`: consecutive slots
are contiguous, the first starts at `a` and the last ends at `b`. -/
def chainFrom : ℤ → List Slot → ℤ → Prop
  | a, [], b => a = b
  | a, s :: rest, b => s.start = a ∧ chainFrom s.end_ rest b

instance instDecChainFrom : (l : List Slot) → (a b : ℤ) → Decidable (chainFrom a l b)
  | [], a, b => decidable_of_iff (a = b) (by simp [chainFrom])
  | s :: rest, a, b =>
    have : Decidable (chainFrom s.end_ rest b) := instDecChainFrom rest s.end_ b
    decidable_of_iff (s.start = a ∧ chainFrom s.end_ rest b) (by simp [chainFrom])

/-- The partition property claimed for a non-empty schedule: the slots, in
order, tile [0, period) exactly. -/
def Schedule.partitions (sch : Schedule) : Prop :=
  sch.slots ≠ [] ∧ chainFrom 0 sch.slots (sch.period : ℤ)

instance (sch : Schedule) : Decidable sch.partitions :=
  decidable_of_iff (sch.slots ≠ [] ∧ chainFrom 0 sch.slots (sch.period : ℤ)) Iff.rfl

/-- The padding walk interleaved with its input: each gap slot placed directly
before the slot it precedes.  Sorting the input together with the recorded
padding slots yields exactly this list. -/
def padView (traffic : Traffic) : ℤ → List Slot → List Slot
  | _, [] => []
  | e, s :: rest =>
    if e < s.start then
      Slot.make (e : ℚ) ((s.start : ℤ) : ℚ) traffic :: s :: padView traffic s.end_ rest
    else s :: padView traffic s.end_ rest

/-! Concrete fixtures used to exercise the definitions. -/

/-- An 8 Tx queue, 1 Gbps device interface (the mGBE-class example). -/
def egInterface : Interface := ⟨"eth0", 1000000000, 8⟩

/-- A 4 Tx queue device whose link rate does not divide typical frame bit
counts. -/
def egInterface3G : Interface := ⟨"eth1", 3000000000, 4⟩

/-- An 8 Tx queue, 8 Gbps interface (frame lengths divide evenly). -/
def egInterface8G : Interface := ⟨"eth2", 8000000000, 8⟩

def egStream : StreamConfiguration := ⟨"aa:bb:cc:dd:ee:ff", 3, 6, 0, none⟩

/-- Scenario 1 of the specification: 1 Gbps, interval 20 ms, 1522 byte frames,
txoffset 0. -/
def egConfig : Configuration := ⟨egInterface, egStream, ⟨20000000, 1522⟩⟩

/-- A configuration whose on-wire length is not an integer number of
nanoseconds: 1 byte at 3 Gbps. -/
def egConfig3G : Configuration := ⟨egInterface3G, ⟨"aa:bb:cc:dd:ee:01", 3, 6, 0, none⟩, ⟨10, 1⟩⟩

/-- A configuration whose traffic overruns its own interval: txoffset 9,
interval 10, on-wire length 5 ns (5 bytes at 8 Gbps). -/
def egConfigOverrun : Configuration :=
  ⟨egInterface8G, ⟨"aa:bb:cc:dd:ee:02", 3, 6, 9, none⟩, ⟨10, 5⟩⟩

/-- A well-behaved configuration on the 8 Gbps interface: txoffset 0,
interval 10, length 5 ns. -/
def egConfigFit : Configuration :=
  ⟨egInterface8G, ⟨"aa:bb:cc:dd:ee:03", 3, 6, 0, none⟩, ⟨10, 5⟩⟩

def egMapping : Mapping := Mapping.init egInterface

def egMapping8G : Mapping := Mapping.init egInterface8G

/-- The best-effort traffic Scheduler.__init__ builds for egMapping. -/
def egBestEffort : Traffic :=
  { type := .BEST_EFFORT, socket_prio := some 0, queue := some 0, tc := some 0 }

def egScheduler : Scheduler := ⟨{}, [egBestEffort]⟩

/-- A mapping state with free lists of unequal lengths, demonstrating the
behavior of assign_and_map on a partial failure. -/
def egMappingSkewed : Mapping :=
  { egMapping with available_socket_prios := [7], available_tcs := [],
                   available_tx_queues := [] }

/-- The traffic Traffic.scheduledOf builds from egConfigFit (5 bytes at
8 Gbps = 5 ns on the wire), with traffic class 1 assigned; written as a
literal record (see egTrafficA_eq). -/
def egTrafficA : Traffic :=
  { type := .SCHEDULED, interval := 10, size := 5, start := 0,
    addr := "aa:bb:cc:dd:ee:03", vid := 3, pcp := 6, tc := some 1,
    length := 5, end_ := 5 }

/-- A second scheduled traffic: interval 20, offset 5, length 5 ns. -/
def egTrafficB : Traffic :=
  { type := .SCHEDULED, interval := 20, size := 5, start := 5,
    addr := "aa:bb:cc:dd:ee:04", vid := 4, pcp := 6, tc := some 2,
    length := 5, end_ := 10 }

/-- A schedule that opens the gate for egTrafficA twice in one cycle
(A, B, A). -/
def egScheduleMultiOpen : Schedule :=
  { slots := [⟨0, 5, 5, egTrafficA⟩, ⟨5, 10, 5, egTrafficB⟩, ⟨10, 15, 5, egTrafficA⟩]
    period := 20 }

/-- A schedule in which every gate opens once (A, B). -/
def egScheduleSingleOpen : Schedule :=
  { slots := [⟨0, 5, 5, egTrafficA⟩, ⟨5, 10, 5, egTrafficB⟩], period := 20 }

/-- A scheduler holding egTrafficA and egTrafficB with the matching schedule. -/
def egSchedulerAB : Scheduler := ⟨egScheduleSingleOpen, [egBestEffort, egTrafficA, egTrafficB]⟩

/-- A traffic overrunning its interval: start 9, interval 10, length 5
(the traffic Traffic.scheduledOf builds from egConfigOverrun, tc 1). -/
def egTrafficOverrun : Traffic :=
  { type := .SCHEDULED, interval := 10, size := 5, start := 9,
    addr := "aa:bb:cc:dd:ee:02", vid := 3, pcp := 6, tc := some 1,
    length := 5, end_ := 14 }

/-- The scheduler state reached by adding egTrafficOverrun to a fresh
scheduler: the last slot ends at 14, beyond the period 10. -/
def egSchedulerOverrun : Scheduler :=
  ⟨⟨[⟨0, 9, 9, egBestEffort⟩, ⟨9, 14, 5, egTrafficOverrun⟩], 10⟩,
    [egBestEffort, egTrafficOverrun]⟩

/-- The scheduler state reached by adding egTrafficA to a fresh scheduler. -/
def egSchedulerFit : Scheduler :=
  ⟨⟨[⟨0, 5, 5, egTrafficA⟩, ⟨5, 10, 5, egBestEffort⟩], 10⟩, [egBestEffort, egTrafficA]⟩

/-- A traffic whose start (3) falls inside egTrafficA's slot [0, 5]. -/
def egTrafficC : Traffic :=
  { type := .SCHEDULED, interval := 10, size := 5, start := 3,
    addr := "aa:bb:cc:dd:ee:05", vid := 5, pcp := 6, tc := some 3,
    length := 5, end_ := 8 }

end Detd

namespace Detd

/-! Helper lemmas. -/

theorem conflicts_with_traffic_eq_true (sch : Schedule) (t : Traffic) :
    sch.conflicts_with_traffic t = true ↔
      (t.type ≠ TrafficType.BEST_EFFORT ∧
        ∃ slot ∈ sch.slots, slot.traffic.type = TrafficType.SCHEDULED ∧
          (((slot.start : ℚ) ≤ (t.start : ℚ) ∧ (t.start : ℚ) ≤ (slot.end_ : ℚ)) ∨
           ((slot.start : ℚ) ≤ t.end_ ∧ t.end_ ≤ (slot.end_ : ℚ)))) := by
  unfold Schedule.conflicts_with_traffic
  split
  · rename_i h
    simp [h]
  · rename_i h
    simp [h, List.any_eq_true, ge_iff_le]

theorem assign_then_unmap (m m1 : Mapping) (pcp : ℕ) (traffics : List Traffic)
    (so tc q : ℕ) (hhwq : m.tc_to_hwq.length ≠ 1)
    (h : m.assign_and_map pcp traffics = (m1, some (so, tc, q))) :
    m1.unmap_and_free so tc q = some m := by
  obtain ⟨i, bsp, bet, asp, atc, atq, ts, sp, hw⟩ := m
  rcases asp with _ | ⟨so0, rest⟩ <;> rcases atc with _ | ⟨tc0, rest2⟩ <;>
    rcases atq with _ | ⟨q0, rest3⟩ <;>
    simp_all [Mapping.assign_and_map, Mapping.assign_soprio_and_map,
      Mapping.assign_tc_and_map, Mapping.assign_queue_and_map,
      Mapping.unmap_and_free, Mapping.unmap_and_free_queue,
      Mapping.unmap_and_free_tc, Mapping.unmap_and_free_soprio]
  obtain ⟨hm1, hso, htc, hq⟩ := h
  subst hm1
  simp_all [Mapping.unmap_and_free, Mapping.unmap_and_free_queue,
    Mapping.unmap_and_free_tc, Mapping.unmap_and_free_soprio]

theorem pyInt_natCast (n : ℕ) : pyInt (n : ℚ) = (n : ℤ) := by
  simp [pyInt, Rat.num_natCast, Rat.den_natCast, Int.tdiv_one]

theorem pyInt_intCast (z : ℤ) : pyInt (z : ℚ) = z := by
  simp [pyInt, Rat.num_intCast, Rat.den_intCast, Int.tdiv_one]

theorem pyInt_nonneg_floor (q : ℚ) (h : 0 ≤ q) : pyInt q = ⌊q⌋ := by
  rw [pyInt, Rat.floor_def,
    Int.tdiv_eq_ediv (Rat.num_nonneg.mpr h) (by exact_mod_cast q.den_pos.le)]

theorem insertSlot_perm (s : Slot) (l : List Slot) :
    (insertSlot s l).Perm (s :: l) := by
  induction l with
  | nil => simp [insertSlot]
  | cons x xs ih =>
    unfold insertSlot
    split
    · exact .refl _
    · exact (ih.cons x).trans (List.Perm.swap s x xs)

theorem sortSlots_perm (l : List Slot) : (sortSlots l).Perm l := by
  suffices h : ∀ (l acc : List Slot),
      (l.foldl (fun a s => insertSlot s a) acc).Perm (acc ++ l) by
    simpa using h l []
  intro l
  induction l with
  | nil => intro acc; simp
  | cons x xs ih =>
    intro acc
    have h1 : (List.foldl (fun a s => insertSlot s a) (insertSlot x acc) xs).Perm
        (insertSlot x acc ++ xs) := ih (insertSlot x acc)
    have h2 : (insertSlot x acc ++ xs).Perm ((x :: acc) ++ xs) :=
      (insertSlot_perm x acc).append_right xs
    have h3 : ((x :: acc) ++ xs).Perm (acc ++ x :: xs) := by
      simpa using List.perm_middle.symm
    exact (h1.trans h2).trans h3

theorem insertSlot_pairwise (s : Slot) (l : List Slot)
    (h : l.Pairwise (fun u v => u.start ≤ v.start)) :
    (insertSlot s l).Pairwise (fun u v => u.start ≤ v.start) := by
  induction l with
  | nil => simp [insertSlot]
  | cons x xs ih =>
    unfold insertSlot
    split
    · rename_i hlt
      refine List.Pairwise.cons ?_ h
      intro b hb
      rcases List.mem_cons.mp hb with hb1 | hb1
      · exact hb1 ▸ hlt.le
      · exact hlt.le.trans ((List.pairwise_cons.mp h).1 b hb1)
    · rename_i hge
      push_neg at hge
      rw [List.pairwise_cons] at h
      refine List.Pairwise.cons ?_ (ih h.2)
      intro b hb
      rcases List.mem_cons.mp ((insertSlot_perm s xs).mem_iff.mp hb) with hb1 | hb1
      · exact hb1 ▸ hge
      · exact h.1 b hb1

theorem sortSlots_pairwise (l : List Slot) :
    (sortSlots l).Pairwise (fun u v => u.start ≤ v.start) := by
  suffices h : ∀ (l acc : List Slot),
      acc.Pairwise (fun u v => u.start ≤ v.start) →
      (l.foldl (fun a s => insertSlot s a) acc).Pairwise (fun u v => u.start ≤ v.start) by
    exact h l [] (by simp)
  intro l
  induction l with
  | nil => intro acc h; simpa using h
  | cons x xs ih =>
    intro acc h
    exact ih (insertSlot x acc) (insertSlot_pairwise x acc h)

theorem chainFrom_append_one (l : List Slot) (a b : ℤ) (s : Slot)
    (h : chainFrom a l b) (hs : s.start = b) : chainFrom a (l ++ [s]) s.end_ := by
  induction l generalizing a with
  | nil =>
    cases h
    exact ⟨hs, rfl⟩
  | cons x xs ih =>
    obtain ⟨hx, hrest⟩ := h
    exact ⟨hx, ih _ hrest⟩

theorem chainFrom_getLast (l : List Slot) (a b : ℤ) (h : chainFrom a l b)
    (hne : l ≠ []) : ∃ last, l.getLast? = some last ∧ last.end_ = b := by
  induction l generalizing a with
  | nil => exact absurd rfl hne
  | cons x xs ih =>
    obtain ⟨hx, hrest⟩ := h
    cases xs with
    | nil =>
      cases hrest
      exact ⟨x, rfl, rfl⟩
    | cons y ys =>
      obtain ⟨last, hl, hb⟩ := ih x.end_ hrest (by simp)
      exact ⟨last, by rw [List.getLast?_cons_cons]; exact hl, hb⟩

theorem padView_eq_nil_iff (t : Traffic) (e : ℤ) (l : List Slot) :
    padView t e l = [] ↔ l = [] := by
  cases l with
  | nil => simp [padView]
  | cons s rest =>
    unfold padView
    split <;> simp

theorem padWalk_perm (t : Traffic) (l : List Slot) :
    ∀ (e : ℤ) (pads : List Slot) (f : ℤ), padWalk t e l = some (pads, f) →
      (l ++ pads).Perm (padView t e l) := by
  induction l with
  | nil =>
    intro e pads f h
    simp [padWalk] at h
    rw [h.1]
    simp [padView]
  | cons s rest ih =>
    intro e pads f h
    unfold padWalk at h
    split at h
    case isTrue hle =>
      cases hrec : padWalk t s.end_ rest with
      | none => rw [hrec] at h; exact absurd h (by simp)
      | some pf =>
        obtain ⟨pads0, f0⟩ := pf
        rw [hrec] at h
        dsimp only at h
        have hih := ih s.end_ pads0 f0 hrec
        by_cases hlt : e < s.start
        · rw [if_pos hlt] at h
          obtain ⟨hp1, _⟩ := Prod.mk.injEq .. ▸ Option.some.inj h
          subst hp1
          rw [padView, if_pos hlt]
          exact List.perm_middle.trans ((hih.cons s).cons _)
        · rw [if_neg hlt] at h
          obtain ⟨hp1, _⟩ := Prod.mk.injEq .. ▸ Option.some.inj h
          subst hp1
          rw [padView, if_neg hlt]
          exact hih.cons s
    case isFalse hle =>
      exact absurd h (by simp)

theorem padWalk_chain (t : Traffic) (l : List Slot) :
    ∀ (e : ℤ) (pads : List Slot) (f : ℤ), padWalk t e l = some (pads, f) →
      chainFrom e (padView t e l) f := by
  induction l with
  | nil =>
    intro e pads f h
    simp [padWalk] at h
    rw [← h.2]
    simp [padView, chainFrom]
  | cons s rest ih =>
    intro e pads f h
    unfold padWalk at h
    split at h
    case isTrue hle =>
      cases hrec : padWalk t s.end_ rest with
      | none => rw [hrec] at h; exact absurd h (by simp)
      | some pf =>
        obtain ⟨pads0, f0⟩ := pf
        rw [hrec] at h
        dsimp only at h
        have hih := ih s.end_ pads0 f0 hrec
        by_cases hlt : e < s.start
        · rw [if_pos hlt] at h
          obtain ⟨_, hp2⟩ := Prod.mk.injEq .. ▸ Option.some.inj h
          subst hp2
          rw [padView, if_pos hlt]
          refine ⟨?_, ?_, hih⟩
          · show pyInt ((e : ℤ) : ℚ) = e
            exact pyInt_intCast e
          · show s.start = pyInt ((s.start : ℤ) : ℚ)
            exact (pyInt_intCast s.start).symm
        · rw [if_neg hlt] at h
          obtain ⟨_, hp2⟩ := Prod.mk.injEq .. ▸ Option.some.inj h
          subst hp2
          rw [padView, if_neg hlt]
          exact ⟨by omega, hih⟩
    case isFalse hle =>
      exact absurd h (by simp)

theorem padWalk_pads (t : Traffic) (l : List Slot) :
    ∀ (e : ℤ) (pads : List Slot) (f : ℤ), padWalk t e l = some (pads, f) →
      ∀ p ∈ pads, p.traffic = t ∧ p.start < p.end_ := by
  induction l with
  | nil =>
    intro e pads f h
    simp [padWalk] at h
    rw [h.1]
    simp
  | cons s rest ih =>
    intro e pads f h
    unfold padWalk at h
    split at h
    case isTrue hle =>
      cases hrec : padWalk t s.end_ rest with
      | none => rw [hrec] at h; exact absurd h (by simp)
      | some pf =>
        obtain ⟨pads0, f0⟩ := pf
        rw [hrec] at h
        dsimp only at h
        have hih := ih s.end_ pads0 f0 hrec
        by_cases hlt : e < s.start
        · rw [if_pos hlt] at h
          obtain ⟨hp1, _⟩ := Prod.mk.injEq .. ▸ Option.some.inj h
          subst hp1
          intro p hp
          rcases List.mem_cons.mp hp with h1 | h1
          · subst h1
            refine ⟨rfl, ?_⟩
            show pyInt ((e : ℤ) : ℚ) < pyInt ((s.start : ℤ) : ℚ)
            rw [pyInt_intCast, pyInt_intCast]
            exact hlt
          · exact hih p h1
        · rw [if_neg hlt] at h
          obtain ⟨hp1, _⟩ := Prod.mk.injEq .. ▸ Option.some.inj h
          subst hp1
          exact hih
    case isFalse hle =>
      exact absurd h (by simp)

theorem padWalk_final (t : Traffic) (l : List Slot) :
    ∀ (e : ℤ) (pads : List Slot) (f : ℤ), padWalk t e l = some (pads, f) →
      (l = [] ∧ pads = [] ∧ f = e) ∨
      (∃ last, l.getLast? = some last ∧ last.end_ = f) := by
  induction l with
  | nil =>
    intro e pads f h
    simp [padWalk] at h
    exact Or.inl ⟨rfl, h.1, h.2.symm⟩
  | cons s rest ih =>
    intro e pads f h
    unfold padWalk at h
    split at h
    case isTrue hle =>
      cases hrec : padWalk t s.end_ rest with
      | none => rw [hrec] at h; exact absurd h (by simp)
      | some pf =>
        obtain ⟨pads0, f0⟩ := pf
        rw [hrec] at h
        dsimp only at h
        have hf : f = f0 := by
          by_cases hlt : e < s.start
          · rw [if_pos hlt] at h
            exact (Prod.mk.injEq .. ▸ Option.some.inj h).2.symm
          · rw [if_neg hlt] at h
            exact (Prod.mk.injEq .. ▸ Option.some.inj h).2.symm
        subst hf
        refine Or.inr ?_
        rcases ih s.end_ pads0 f hrec with ⟨hr, _, hfe⟩ | ⟨last, hl, he⟩
        · subst hr
          exact ⟨s, rfl, hfe.symm⟩
        · cases rest with
          | nil => simp at hl
          | cons y ys =>
            exact ⟨last, by rw [List.getLast?_cons_cons]; exact hl, he⟩
    case isFalse hle =>
      exact absurd h (by simp)

theorem insertSlot_of_forall_le (s : Slot) (l : List Slot)
    (h : ∀ x ∈ l, x.start ≤ s.start) : insertSlot s l = l ++ [s] := by
  induction l with
  | nil => rfl
  | cons x xs ih =>
    unfold insertSlot
    rw [if_neg (not_lt.mpr (h x (by simp)))]
    rw [ih (fun y hy => h y (by simp [hy]))]
    rfl

theorem foldl_insertSlot_cons (ps : List Slot) (x : Slot) :
    ∀ l : List Slot, (∀ q ∈ ps, x.start ≤ q.start) →
      ps.foldl (fun acc p => insertSlot p acc) (x :: l)
        = x :: ps.foldl (fun acc p => insertSlot p acc) l := by
  induction ps with
  | nil => intro l _; rfl
  | cons p ps ih =>
    intro l h
    rw [List.foldl_cons, List.foldl_cons]
    have h1 : insertSlot p (x :: l) = x :: insertSlot p l := by
      simp only [insertSlot]
      rw [if_neg (not_lt.mpr (h p (by simp)))]
    rw [h1]
    exact ih (insertSlot p l) (fun q hq => h q (by simp [hq]))

/-- The stable insertion sort leaves an already start-sorted list unchanged. -/
theorem sortSlots_of_sorted (l : List Slot)
    (h : l.Pairwise (fun u v => u.start ≤ v.start)) : sortSlots l = l := by
  suffices hh : ∀ (l acc : List Slot),
      (∀ a ∈ acc, ∀ b ∈ l, a.start ≤ b.start) →
      l.Pairwise (fun u v => u.start ≤ v.start) →
      l.foldl (fun a s => insertSlot s a) acc = acc ++ l by
    simpa using hh l [] (by simp) h
  intro l
  induction l with
  | nil => intro acc _ _; simp
  | cons x xs ih =>
    intro acc hal hpw
    rw [List.foldl_cons]
    rw [List.pairwise_cons] at hpw
    have h1 : insertSlot x acc = acc ++ [x] :=
      insertSlot_of_forall_le x acc (fun a ha => hal a ha x (by simp))
    rw [h1, ih (acc ++ [x]) ?_ hpw.2]
    · rw [List.append_assoc]
      rfl
    · intro a ha b hb
      rcases List.mem_append.mp ha with h2 | h2
      · exact hal a h2 b (by simp [hb])
      · simp at h2
        subst h2
        exact hpw.1 b hb

/-- Every padding slot the walk records starts no earlier than the coverage
point the walk was entered with (given the slots have nonnegative width). -/
theorem padWalk_pads_keys (t : Traffic) (l : List Slot)
    (hnn : ∀ s ∈ l, s.start ≤ s.end_) :
    ∀ (e : ℤ) (pads : List Slot) (f : ℤ), padWalk t e l = some (pads, f) →
      ∀ p ∈ pads, e ≤ p.start := by
  induction l with
  | nil =>
    intro e pads f h
    simp [padWalk] at h
    rw [h.1]
    simp
  | cons s rest ih =>
    intro e pads f h
    unfold padWalk at h
    split at h
    case isTrue hle =>
      cases hrec : padWalk t s.end_ rest with
      | none => rw [hrec] at h; exact absurd h (by simp)
      | some pf =>
        obtain ⟨pads0, f0⟩ := pf
        rw [hrec] at h
        dsimp only at h
        have hih := ih (fun u hu => hnn u (by simp [hu])) s.end_ pads0 f0 hrec
        have hes : e ≤ s.end_ := le_trans hle (hnn s (by simp))
        by_cases hlt : e < s.start
        · rw [if_pos hlt] at h
          obtain ⟨hp1, _⟩ := Prod.mk.injEq .. ▸ Option.some.inj h
          subst hp1
          intro p hp
          rcases List.mem_cons.mp hp with h1 | h1
          · subst h1
            show e ≤ pyInt ((e : ℤ) : ℚ)
            rw [pyInt_intCast]
          · exact le_trans hes (hih p h1)
        · rw [if_neg hlt] at h
          obtain ⟨hp1, _⟩ := Prod.mk.injEq .. ▸ Option.some.inj h
          subst hp1
          intro p hp
          exact le_trans hes (hih p hp)
    case isFalse hle =>
      exact absurd h (by simp)

/-- Stability of the sort: inserting the recorded padding slots, in order,
into the walked slot list produces exactly the interleaved view. -/
theorem padWalk_foldl_insert (t : Traffic) (l : List Slot)
    (hnn : ∀ s ∈ l, s.start ≤ s.end_) :
    ∀ (e : ℤ) (pads : List Slot) (f : ℤ), padWalk t e l = some (pads, f) →
      pads.foldl (fun acc p => insertSlot p acc) l = padView t e l := by
  induction l with
  | nil =>
    intro e pads f h
    simp [padWalk] at h
    rw [h.1]
    rfl
  | cons s rest ih =>
    intro e pads f h
    unfold padWalk at h
    split at h
    case isTrue hle =>
      cases hrec : padWalk t s.end_ rest with
      | none => rw [hrec] at h; exact absurd h (by simp)
      | some pf =>
        obtain ⟨pads0, f0⟩ := pf
        rw [hrec] at h
        dsimp only at h
        have hnn2 : ∀ u ∈ rest, u.start ≤ u.end_ := fun u hu => hnn u (by simp [hu])
        have hih := ih hnn2 s.end_ pads0 f0 hrec
        have hkeys : ∀ q ∈ pads0, s.end_ ≤ q.start :=
          padWalk_pads_keys t rest hnn2 s.end_ pads0 f0 hrec
        by_cases hlt : e < s.start
        · rw [if_pos hlt] at h
          obtain ⟨hp1, _⟩ := Prod.mk.injEq .. ▸ Option.some.inj h
          subst hp1
          set P := Slot.make ((e : ℤ) : ℚ) ((s.start : ℤ) : ℚ) t with hPdef
          have hPstart : P.start = e := pyInt_intCast e
          rw [List.foldl_cons]
          have h1 : insertSlot P (s :: rest) = P :: s :: rest := by
            unfold insertSlot
            rw [if_pos (by rw [hPstart]; exact hlt)]
          rw [h1]
          have h2 : pads0.foldl (fun acc p => insertSlot p acc) (P :: s :: rest)
              = P :: pads0.foldl (fun acc p => insertSlot p acc) (s :: rest) := by
            refine foldl_insertSlot_cons pads0 P _ ?_
            intro q hq
            rw [hPstart]
            exact le_trans (le_trans hle (hnn s (by simp))) (hkeys q hq)
          have h3 : pads0.foldl (fun acc p => insertSlot p acc) (s :: rest)
              = s :: pads0.foldl (fun acc p => insertSlot p acc) rest := by
            refine foldl_insertSlot_cons pads0 s _ ?_
            intro q hq
            exact le_trans (hnn s (by simp)) (hkeys q hq)
          rw [h2, h3, hih, padView, if_pos hlt]
        · rw [if_neg hlt] at h
          obtain ⟨hp1, _⟩ := Prod.mk.injEq .. ▸ Option.some.inj h
          subst hp1
          have h3 : pads0.foldl (fun acc p => insertSlot p acc) (s :: rest)
              = s :: pads0.foldl (fun acc p => insertSlot p acc) rest := by
            refine foldl_insertSlot_cons pads0 s _ ?_
            intro q hq
            exact le_trans (hnn s (by simp)) (hkeys q hq)
          rw [h3, hih, padView, if_neg hlt]
    case isFalse hle =>
      exact absurd h (by simp)

theorem scheduledOf_length_nonneg (cfg : Configuration) :
    0 ≤ (Traffic.scheduledOf cfg).length := by
  show (0 : ℚ) ≤ ((cfg.traffic.size * Bytes_to_bits : ℕ) : ℚ) /
    ((cfg.interface.rate : ℚ) / (s_to_ns : ℚ))
  positivity

theorem lcm_eq_foldl (numbers : List ℕ) : lcm numbers = numbers.foldl Nat.lcm 1 := by
  unfold lcm
  congr

theorem foldl_lcm_dvd (l : List ℕ) : ∀ (acc : ℕ), acc ∣ l.foldl Nat.lcm acc := by
  induction l with
  | nil => intro acc; simp
  | cons x xs ih =>
    intro acc
    exact (Nat.dvd_lcm_left acc x).trans (ih (Nat.lcm acc x))

theorem dvd_lcm_of_mem (l : List ℕ) (x : ℕ) (hx : x ∈ l) : x ∣ lcm l := by
  rw [lcm_eq_foldl]
  suffices h : ∀ (acc : ℕ), x ∣ l.foldl Nat.lcm acc by exact h 1
  induction l with
  | nil => cases hx
  | cons y ys ih =>
    intro acc
    rcases List.mem_cons.mp hx with h1 | h1
    · subst h1
      exact (Nat.dvd_lcm_right acc x).trans (foldl_lcm_dvd ys (Nat.lcm acc x))
    · exact ih h1 (Nat.lcm acc y)

theorem lcm_ne_zero (l : List ℕ) (h : ∀ x ∈ l, x ≠ 0) : lcm l ≠ 0 := by
  rw [lcm_eq_foldl]
  suffices hh : ∀ (acc : ℕ), acc ≠ 0 → l.foldl Nat.lcm acc ≠ 0 by
    exact hh 1 one_ne_zero
  induction l with
  | nil => intro acc ha; simpa using ha
  | cons y ys ih =>
    intro acc ha
    refine ih (fun x hx => h x (by simp [hx])) (Nat.lcm acc y) ?_
    exact Nat.lcm_ne_zero ha (h y (by simp))

theorem foldl_addSlots_period (f g : ℕ → ℚ) (t : Traffic) (ks : List ℕ) :
    ∀ sch : Schedule,
      (ks.foldl (fun sch2 k => sch2.add_scheduled_traffic (f k) (g k) t) sch).period
        = sch.period := by
  induction ks with
  | nil => intro sch; rfl
  | cons k ks ih =>
    intro sch
    rw [List.foldl_cons, ih]
    rfl

theorem foldl_addSlots_slots (f g : ℕ → ℚ) (t : Traffic) (ks : List ℕ) :
    ∀ sch : Schedule,
      ((ks.foldl (fun sch2 k => sch2.add_scheduled_traffic (f k) (g k) t) sch).slots).Perm
        (sch.slots ++ ks.map (fun k => Slot.make (f k) (g k) t)) := by
  induction ks with
  | nil => intro sch; simp
  | cons k ks ih =>
    intro sch
    rw [List.foldl_cons]
    refine (ih _).trans ?_
    have h1 : (sch.add_scheduled_traffic (f k) (g k) t).slots.Perm
        (sch.slots ++ [Slot.make (f k) (g k) t]) :=
      sortSlots_perm _
    refine (h1.append_right _).trans ?_
    rw [List.append_assoc, List.singleton_append, List.map_cons]

theorem foldl_addSlots_sorted (f g : ℕ → ℚ) (t : Traffic) (ks : List ℕ) :
    ∀ sch : Schedule, sch.slots.Pairwise (fun u v => u.start ≤ v.start) →
      ((ks.foldl (fun sch2 k => sch2.add_scheduled_traffic (f k) (g k) t) sch).slots).Pairwise
        (fun u v => u.start ≤ v.start) := by
  induction ks with
  | nil => intro sch h; exact h
  | cons k ks ih =>
    intro sch h
    rw [List.foldl_cons]
    exact ih _ (sortSlots_pairwise _)

theorem genStep_period (sch : Schedule) (t : Traffic) :
    (genStep sch t).period = sch.period :=
  foldl_addSlots_period _ _ _ _ _

theorem genStep_slots (sch : Schedule) (t : Traffic) :
    (genStep sch t).slots.Perm (sch.slots ++ trafficSlots sch.period t) :=
  foldl_addSlots_slots _ _ _ _ _

theorem genStep_sorted (sch : Schedule) (t : Traffic)
    (h : sch.slots.Pairwise (fun u v => u.start ≤ v.start)) :
    (genStep sch t).slots.Pairwise (fun u v => u.start ≤ v.start) :=
  foldl_addSlots_sorted _ _ _ _ _ h

theorem genFold_period (ts : List Traffic) :
    ∀ sch : Schedule, (ts.foldl genStep sch).period = sch.period := by
  induction ts with
  | nil => intro sch; rfl
  | cons t ts ih =>
    intro sch
    rw [List.foldl_cons, ih, genStep_period]

theorem genFold_slots (ts : List Traffic) :
    ∀ sch : Schedule, ((ts.foldl genStep sch).slots).Perm
      (sch.slots ++ ts.flatMap (fun t => trafficSlots sch.period t)) := by
  induction ts with
  | nil => intro sch; simp
  | cons t ts ih =>
    intro sch
    rw [List.foldl_cons]
    refine (ih _).trans ?_
    rw [genStep_period]
    refine ((genStep_slots sch t).append_right _).trans ?_
    rw [List.flatMap_cons, List.append_assoc]

theorem genFold_sorted (ts : List Traffic) :
    ∀ sch : Schedule, sch.slots.Pairwise (fun u v => u.start ≤ v.start) →
      ((ts.foldl genStep sch).slots).Pairwise (fun u v => u.start ≤ v.start) := by
  induction ts with
  | nil => intro sch h; exact h
  | cons t ts ih =>
    intro sch h
    rw [List.foldl_cons]
    exact ih _ (genStep_sorted sch t h)

theorem trafficSlots_mem (P : ℕ) (t : Traffic) (sl : Slot)
    (h : sl ∈ trafficSlots P t) :
    sl.traffic = t ∧ ∃ k, k < P / t.interval ∧
      sl = Slot.make ((t.start + t.interval * k : ℕ) : ℚ)
        (((t.start + t.interval * k : ℕ) : ℚ) + t.length) t := by
  unfold trafficSlots at h
  obtain ⟨k, hk, hsl⟩ := List.mem_map.mp h
  exact ⟨hsl ▸ rfl, k, List.mem_range.mp hk, hsl.symm⟩

/-- Characterization of a successful reschedule outside the trivial
single-best-effort branch. -/
theorem reschedule_some_general (t0 : Traffic) (rest : List Traffic) (sch : Schedule)
    (h : Scheduler.reschedule (t0 :: rest) = some sch)
    (hne : ¬(rest = [] ∧ t0.type = TrafficType.BEST_EFFORT)) :
    (∀ t ∈ (t0 :: rest).filter (fun t => t.type = TrafficType.SCHEDULED), t.interval ≠ 0) ∧
    sch.period =
      lcm (((t0 :: rest).filter (fun t => t.type = TrafficType.SCHEDULED)).map
        (fun t => t.interval)) ∧
    ∃ gs pads f last,
      gs.Perm (((t0 :: rest).filter (fun t => t.type = TrafficType.SCHEDULED)).flatMap
        (fun t => trafficSlots sch.period t)) ∧
      gs.Pairwise (fun u v : Slot => u.start ≤ v.start) ∧
      padWalk t0 0 gs = some (pads, f) ∧
      (sortSlots (gs ++ pads)).getLast? = some last ∧
      ((last.end_ < (sch.period : ℤ) ∧
        sch.slots = sortSlots (gs ++ pads) ++
          [Slot.make ((last.end_ : ℤ) : ℚ) ((sch.period : ℕ) : ℚ) t0]) ∨
       (¬ last.end_ < (sch.period : ℤ) ∧ sch.slots = sortSlots (gs ++ pads))) := by
  unfold Scheduler.reschedule at h
  dsimp only at h
  rw [if_neg hne] at h
  split at h
  case isTrue hz => exact absurd h (by simp)
  case isFalse hz =>
    have hz' : ∀ t ∈ (t0 :: rest).filter (fun t => t.type = TrafficType.SCHEDULED),
        t.interval ≠ 0 := by
      intro t ht
      intro hti
      exact hz (List.any_eq_true.mpr ⟨t, ht, by simp [hti]⟩)
    set scheduled := (t0 :: rest).filter (fun t => t.type = TrafficType.SCHEDULED) with hs
    set P := lcm (scheduled.map (fun t => t.interval)) with hP
    set gen := scheduled.foldl genStep { slots := [], period := P } with hgen
    have hgenP : gen.period = P := genFold_period _ _
    unfold Schedule.add_best_effort_padding at h
    cases hpw : padWalk t0 0 gen.slots with
    | none => rw [hpw] at h; exact absurd h (by simp)
    | some pf =>
      obtain ⟨pads, f⟩ := pf
      rw [hpw] at h
      dsimp only at h
      cases hlast : (sortSlots (gen.slots ++ pads)).getLast? with
      | none => rw [hlast] at h; exact absurd h (by simp)
      | some last =>
        rw [hlast] at h
        dsimp only at h
        have hperiod : sch.period = P := by
          split at h <;> · cases Option.some.inj h; simpa using hgenP
        refine ⟨hz', hperiod, gen.slots, pads, f, last, ?_, ?_, hpw, hlast, ?_⟩
        · rw [hperiod]
          have := genFold_slots scheduled { slots := [], period := P }
          simpa using this
        · exact genFold_sorted scheduled _ (by simp)
        · split at h
          case isTrue hlt =>
            cases Option.some.inj h
            exact Or.inl ⟨by simpa [hgenP] using hlt, by simp [hgenP, hperiod]⟩
          case isFalse hlt =>
            cases Option.some.inj h
            exact Or.inr ⟨by simpa [hgenP] using hlt, by simp⟩

/-- Any scheduled traffic of nonnegative length present in a successfully
rescheduled list conflicts with the resulting schedule: its own first
replica slot contains its start. -/
theorem reschedule_mem_conflicts (t0 : Traffic) (rest : List Traffic)
    (sch : Schedule) (t : Traffic)
    (h : Scheduler.reschedule (t0 :: rest) = some sch)
    (ht : t ∈ t0 :: rest) (hty : t.type = TrafficType.SCHEDULED)
    (hlen : 0 ≤ t.length) :
    sch.conflicts_with_traffic t = true := by
  have hne : ¬(rest = [] ∧ t0.type = TrafficType.BEST_EFFORT) := by
    rintro ⟨h1, h2⟩
    subst h1
    simp at ht
    rw [ht, h2] at hty
    exact absurd hty (by simp)
  obtain ⟨hz, hperiod, gs, pads, f, last, hgs, hsort, hpw, hlast, hbranch⟩ :=
    reschedule_some_general t0 rest sch h hne
  have htf : t ∈ (t0 :: rest).filter (fun u => u.type = TrafficType.SCHEDULED) :=
    List.mem_filter.mpr ⟨ht, by simp [hty]⟩
  have hI : t.interval ≠ 0 := hz t htf
  have hP0 : sch.period ≠ 0 := by
    rw [hperiod]
    refine lcm_ne_zero _ ?_
    intro x hx
    obtain ⟨u, hu, hux⟩ := List.mem_map.mp hx
    exact hux ▸ hz u hu
  have hdvd : t.interval ∣ sch.period := by
    rw [hperiod]
    exact dvd_lcm_of_mem _ _ (List.mem_map.mpr ⟨t, htf, rfl⟩)
  have hn : 0 < sch.period / t.interval :=
    Nat.div_pos (Nat.le_of_dvd (Nat.pos_of_ne_zero hP0) hdvd) (Nat.pos_of_ne_zero hI)
  set slot0 := Slot.make ((t.start + t.interval * 0 : ℕ) : ℚ)
    (((t.start + t.interval * 0 : ℕ) : ℚ) + t.length) t with hs0
  have hmem0 : slot0 ∈ trafficSlots sch.period t := by
    unfold trafficSlots
    exact List.mem_map.mpr ⟨0, List.mem_range.mpr hn, rfl⟩
  have hmemgs : slot0 ∈ gs :=
    hgs.mem_iff.mpr (List.mem_flatMap.mpr ⟨t, htf, hmem0⟩)
  have hmemsort : slot0 ∈ sortSlots (gs ++ pads) :=
    (sortSlots_perm _).mem_iff.mpr (List.mem_append_left _ hmemgs)
  have hmemsch : slot0 ∈ sch.slots := by
    rcases hbranch with ⟨_, hb⟩ | ⟨_, hb⟩
    · rw [hb]
      exact List.mem_append_left _ hmemsort
    · rw [hb]
      exact hmemsort
  have hstart : slot0.start = (t.start : ℤ) := by
    rw [hs0]
    show pyInt ((t.start + t.interval * 0 : ℕ) : ℚ) = _
    rw [pyInt_natCast]
    push_cast
    ring
  have hend : (t.start : ℤ) ≤ slot0.end_ := by
    rw [hs0]
    show (t.start : ℤ) ≤ pyInt (((t.start + t.interval * 0 : ℕ) : ℚ) + t.length)
    rw [pyInt_nonneg_floor]
    · refine Int.le_floor.mpr ?_
      push_cast
      linarith
    · have h0 : (0 : ℚ) ≤ ((t.start + t.interval * 0 : ℕ) : ℚ) := by positivity
      linarith
  refine (conflicts_with_traffic_eq_true sch t).mpr
    ⟨?_, slot0, hmemsch, ?_, Or.inl ⟨?_, ?_⟩⟩
  · rw [hty]
    simp
  · rw [hs0]
    exact hty
  · rw [hstart]
    norm_cast
  · exact_mod_cast hend

theorem reschedule_single_be (t0 : Traffic) (h : t0.type = TrafficType.BEST_EFFORT) :
    Scheduler.reschedule [t0] = some { slots := [], period := 0 } := by
  unfold Scheduler.reschedule
  dsimp only
  rw [if_pos ⟨rfl, h⟩]

theorem reschedule_slot_traffic (t0 : Traffic) (rest : List Traffic) (sch : Schedule)
    (h : Scheduler.reschedule (t0 :: rest) = some sch) :
    ∀ sl ∈ sch.slots,
      (sl.traffic.type = TrafficType.SCHEDULED ∧ sl.traffic ∈ t0 :: rest) ∨
        sl.traffic = t0 := by
  by_cases hbe : rest = [] ∧ t0.type = TrafficType.BEST_EFFORT
  · obtain ⟨h1, h2⟩ := hbe
    subst h1
    rw [reschedule_single_be t0 h2] at h
    cases Option.some.inj h
    intro sl hsl
    simp at hsl
  · obtain ⟨hz, hperiod, gs, pads, f, last, hgs, hsort, hpw, hlast, hbranch⟩ :=
      reschedule_some_general t0 rest sch h hbe
    intro sl hsl
    have hmem : sl ∈ sortSlots (gs ++ pads) ∨
        sl = Slot.make ((last.end_ : ℤ) : ℚ) ((sch.period : ℕ) : ℚ) t0 := by
      rcases hbranch with ⟨_, hb⟩ | ⟨_, hb⟩
      · rw [hb] at hsl
        rcases List.mem_append.mp hsl with h1 | h1
        · exact Or.inl h1
        · exact Or.inr (by simpa using h1)
      · rw [hb] at hsl
        exact Or.inl hsl
    rcases hmem with h1 | h1
    · have h2 : sl ∈ gs ++ pads := (sortSlots_perm _).subset h1
      rcases List.mem_append.mp h2 with h3 | h3
      · have h4 := hgs.subset h3
        obtain ⟨t, ht, hsl2⟩ := List.mem_flatMap.mp h4
        have htr := (trafficSlots_mem _ _ _ hsl2).1
        have hmemf := List.mem_filter.mp ht
        left
        rw [htr]
        exact ⟨by simpa using hmemf.2, hmemf.1⟩
      · exact Or.inr ((padWalk_pads t0 gs 0 pads f hpw sl h3).1)
    · exact Or.inr (by rw [h1]; rfl)

theorem reachable_reschedule (m : Mapping) (s : Scheduler) (h : Reachable m s) :
    Scheduler.reschedule s.traffics = some s.schedule := by
  induction h with
  | init s hs =>
    unfold Scheduler.init at hs
    cases hq : (List.range m.interface.num_tx_queues).head? with
    | none => rw [hq] at hs; exact absurd hs (by simp)
    | some q =>
      rw [hq] at hs
      cases Option.some.inj hs
      exact reschedule_single_be _ rfl
  | add s t s2 hr hadd ih =>
    unfold Scheduler.add at hadd
    split at hadd
    · exact absurd (Prod.mk.injEq .. ▸ Option.some.inj hadd).2 (by simp)
    · cases hres : Scheduler.reschedule (s.traffics ++ [t]) with
      | none => rw [hres] at hadd; exact absurd hadd (by simp)
      | some sch =>
        rw [hres] at hadd
        obtain ⟨h1, _⟩ := Prod.mk.injEq .. ▸ Option.some.inj hadd
        rw [← h1]
        exact hres
  | remove s t s2 hr htype hrm ih =>
    unfold Scheduler.remove at hrm
    split at hrm
    · cases hres : Scheduler.reschedule (s.traffics.erase t) with
      | none => rw [hres] at hrm; exact absurd hrm (by simp)
      | some sch =>
        rw [hres] at hrm
        cases Option.some.inj hrm
        exact hres
    · exact absurd hrm (by simp)

/-- Evaluation of Scheduler.add on a fresh scheduler and the overrunning
traffic (start 9, interval 10, length 5): the schedule becomes
[0,9) best effort, [9,14) scheduled with period 10. -/
theorem add_overrun_eval :
    Scheduler.add egScheduler egTrafficOverrun = some (egSchedulerOverrun, none) := by
  have e1 : Slot.make ((egTrafficOverrun.start : ℕ) : ℚ)
      (((egTrafficOverrun.start : ℕ) : ℚ) + egTrafficOverrun.length) egTrafficOverrun
      = ⟨9, 14, 5, egTrafficOverrun⟩ := by
    show Slot.make ((9 : ℕ) : ℚ) (((9 : ℕ) : ℚ) + 5) egTrafficOverrun = _
    norm_num [Slot.make, pyInt, Rat.num_ofNat, Rat.den_ofNat, Rat.num_natCast,
      Rat.den_natCast, Int.tdiv_one]
  unfold Scheduler.add
  rw [if_neg (by decide)]
  have e2 : Scheduler.reschedule [egBestEffort, egTrafficOverrun] =
      some ⟨[⟨0, 9, 9, egBestEffort⟩, ⟨9, 14, 5, egTrafficOverrun⟩], 10⟩ := by
    simp only [Scheduler.reschedule, List.filter, List.foldl, lcm, genStep,
      Schedule.add_scheduled_traffic, List.range_succ, List.range_zero,
      Nat.mul_zero, Nat.add_zero, e1]
    decide
  have e3 : egScheduler.traffics ++ [egTrafficOverrun] = [egBestEffort, egTrafficOverrun] := rfl
  rw [e3, e2]
  rfl

/-- Evaluation of Scheduler.add on a fresh scheduler and egTrafficA
(start 0, interval 10, length 5): slots [0,5) scheduled, [5,10) best effort. -/
theorem add_fit_eval :
    Scheduler.add egScheduler egTrafficA = some (egSchedulerFit, none) := by
  have e1 : Slot.make ((egTrafficA.start : ℕ) : ℚ)
      (((egTrafficA.start : ℕ) : ℚ) + egTrafficA.length) egTrafficA
      = ⟨0, 5, 5, egTrafficA⟩ := by
    show Slot.make ((0 : ℕ) : ℚ) (((0 : ℕ) : ℚ) + 5) egTrafficA = _
    norm_num [Slot.make, pyInt, Rat.num_ofNat, Rat.den_ofNat, Rat.num_natCast,
      Rat.den_natCast, Int.tdiv_one]
  unfold Scheduler.add
  rw [if_neg (by decide)]
  have e2 : Scheduler.reschedule [egBestEffort, egTrafficA] =
      some ⟨[⟨0, 5, 5, egTrafficA⟩, ⟨5, 10, 5, egBestEffort⟩], 10⟩ := by
    simp only [Scheduler.reschedule, List.filter, List.foldl, lcm, genStep,
      Schedule.add_scheduled_traffic, List.range_succ, List.range_zero,
      Nat.mul_zero, Nat.add_zero, e1]
    decide
  have e3 : egScheduler.traffics ++ [egTrafficA] = [egBestEffort, egTrafficA] := rfl
  rw [e3, e2]
  rfl

theorem reachable_overrun : Reachable egMapping8G egSchedulerOverrun :=
  Reachable.add egScheduler egTrafficOverrun egSchedulerOverrun
    (Reachable.init egScheduler (by decide)) add_overrun_eval

theorem reachable_fit : Reachable egMapping8G egSchedulerFit :=
  Reachable.add egScheduler egTrafficA egSchedulerFit
    (Reachable.init egScheduler (by decide)) add_fit_eval

/-! Claim C10. -/

/-- C10: in every reachable scheduler state the traffics list is non-empty,
its head is the distinguished best-effort traffic built at construction
(add appends after it, remove of a scheduled traffic keeps it), and every
best-effort slot of the schedule references exactly that head. -/
theorem scheduler_best_effort_head_invariant (m : Mapping) (s : Scheduler)
    (h : Reachable m s) :
    ∃ q rest, (List.range m.interface.num_tx_queues).head? = some q ∧
      s.traffics = bestEffortTrafficFor m q :: rest ∧
      (bestEffortTrafficFor m q).type = TrafficType.BEST_EFFORT ∧
      ∀ sl ∈ s.schedule.slots, sl.traffic.type = TrafficType.BEST_EFFORT →
        sl.traffic = bestEffortTrafficFor m q := by
  induction h with
  | init s hs =>
    unfold Scheduler.init at hs
    cases hq : (List.range m.interface.num_tx_queues).head? with
    | none => rw [hq] at hs; exact absurd hs (by simp)
    | some q =>
      rw [hq] at hs
      cases Option.some.inj hs
      exact ⟨q, [], rfl, rfl, rfl, by simp⟩
  | add s t s2 hr hadd ih =>
    obtain ⟨q, rest, hq, htr, hbe, hslots⟩ := ih
    unfold Scheduler.add at hadd
    split at hadd
    · exact absurd (Prod.mk.injEq .. ▸ Option.some.inj hadd).2 (by simp)
    · cases hres : Scheduler.reschedule (s.traffics ++ [t]) with
      | none => rw [hres] at hadd; exact absurd hadd (by simp)
      | some sch =>
        rw [hres] at hadd
        obtain ⟨h1, _⟩ := Prod.mk.injEq .. ▸ Option.some.inj hadd
        subst h1
        refine ⟨q, rest ++ [t], hq, by simp [htr], hbe, ?_⟩
        rw [htr] at hres
        have hres' : Scheduler.reschedule
            (bestEffortTrafficFor m q :: (rest ++ [t])) = some sch := by
          simpa using hres
        intro sl hsl hty
        rcases reschedule_slot_traffic _ _ _ hres' sl hsl with ⟨hty2, _⟩ | heq
        · rw [hty] at hty2; exact absurd hty2 (by simp)
        · exact heq
  | remove s t s2 hr htype hrm ih =>
    obtain ⟨q, rest, hq, htr, hbe, hslots⟩ := ih
    unfold Scheduler.remove at hrm
    split at hrm
    · cases hres : Scheduler.reschedule (s.traffics.erase t) with
      | none => rw [hres] at hrm; exact absurd hrm (by simp)
      | some sch =>
        rw [hres] at hrm
        cases Option.some.inj hrm
        have hneq : bestEffortTrafficFor m q ≠ t := by
          intro heq
          rw [← heq] at htype
          exact absurd htype (by simp [bestEffortTrafficFor])
        have herase : s.traffics.erase t = bestEffortTrafficFor m q :: rest.erase t := by
          rw [htr, List.erase_cons_tail]
          simpa using hneq
        refine ⟨q, rest.erase t, hq, herase, hbe, ?_⟩
        rw [herase] at hres
        intro sl hsl hty
        rcases reschedule_slot_traffic _ _ _ hres sl hsl with ⟨hty2, _⟩ | heq
        · rw [hty] at hty2; exact absurd hty2 (by simp)
        · exact heq
    · exact absurd hrm (by simp)

/-- C10 witness: the invariant applied to the state after adding egTrafficA
to a fresh scheduler for the 8-queue device. -/
theorem scheduler_best_effort_head_invariant_witness :
    ∃ q rest, (List.range egMapping8G.interface.num_tx_queues).head? = some q ∧
      egSchedulerFit.traffics = bestEffortTrafficFor egMapping8G q :: rest ∧
      (bestEffortTrafficFor egMapping8G q).type = TrafficType.BEST_EFFORT ∧
      ∀ sl ∈ egSchedulerFit.schedule.slots,
        sl.traffic.type = TrafficType.BEST_EFFORT →
          sl.traffic = bestEffortTrafficFor egMapping8G q :=
  scheduler_best_effort_head_invariant egMapping8G egSchedulerFit reachable_fit

/-! Claim C5. -/

/-- C5: for a scheduler state whose schedule matches its traffics and a
traffic not yet present, a successful add followed by remove restores the
scheduler exactly, and the matching assign_and_map followed by
unmap_and_free of the returned triple restores the mapping exactly.  (The
repository tracks no configured-VIDs state at this level; there is nothing
further to restore.) -/
theorem add_remove_roundtrip (s : Scheduler) (m : Mapping) (t : Traffic)
    (pcp : ℕ) (traffics : List Traffic)
    (hresch : Scheduler.reschedule s.traffics = some s.schedule)
    (hnotin : t ∉ s.traffics)
    (hhwq : m.tc_to_hwq.length ≠ 1) :
    (∀ s1 : Scheduler, Scheduler.add s t = some (s1, none) →
      Scheduler.remove s1 t = some s) ∧
    (∀ m1 so tc q, m.assign_and_map pcp traffics = (m1, some (so, tc, q)) →
      m1.unmap_and_free so tc q = some m) := by
  constructor
  · intro s1 hadd
    unfold Scheduler.add at hadd
    split at hadd
    · exact absurd (Prod.mk.injEq .. ▸ Option.some.inj hadd).2 (by simp)
    · cases hres : Scheduler.reschedule (s.traffics ++ [t]) with
      | none => rw [hres] at hadd; exact absurd hadd (by simp)
      | some sch =>
        rw [hres] at hadd
        obtain ⟨h1, _⟩ := Prod.mk.injEq .. ▸ Option.some.inj hadd
        subst h1
        unfold Scheduler.remove
        have hmem : t ∈ s.traffics ++ [t] := by simp
        rw [if_pos hmem]
        have herase : (s.traffics ++ [t]).erase t = s.traffics := by
          rw [List.erase_append_right _ (by simpa using hnotin)]
          simp
        show (match Scheduler.reschedule ((s.traffics ++ [t]).erase t) with
          | none => none
          | some sch => some ⟨sch, (s.traffics ++ [t]).erase t⟩) = some s
        rw [herase, hresch]
  · intro m1 so tc q hasg
    exact assign_then_unmap m m1 pcp traffics so tc q hhwq hasg

/-- C5 witness: fresh scheduler and mapping, adding and removing egTrafficA. -/
theorem add_remove_roundtrip_witness :
    Scheduler.reschedule egScheduler.traffics = some egScheduler.schedule ∧
    egTrafficA ∉ egScheduler.traffics ∧
    egMapping.tc_to_hwq.length ≠ 1 ∧
    (∀ s1 : Scheduler, Scheduler.add egScheduler egTrafficA = some (s1, none) →
      Scheduler.remove s1 egTrafficA = some egScheduler) ∧
    Scheduler.remove egSchedulerFit egTrafficA = some egScheduler := by
  have h := add_remove_roundtrip egScheduler egMapping egTrafficA 6 []
    (by decide) (by decide) (by decide)
  exact ⟨by decide, by decide, by decide, h.1, h.1 egSchedulerFit add_fit_eval⟩

/-! Claim C1. -/

/-- C1: when add_talker fails at the schedule-conflict step, the
device-support step or the SystemConfigurator step, the manager state after
the exception equals the state before the call: the mapping free lists and
the scheduler traffics and schedule show no partial mutation.  (A failure of
assign_and_map itself, the resource-exhausted case, is outside this claim.) -/
theorem add_talker_rollback_atomic (cfg : Configuration) (dev : Schedule → Bool)
    (sysOk : Bool) (st : ManagerState)
    (hresch : Scheduler.reschedule st.scheduler.traffics = some st.scheduler.schedule)
    (hhwq : st.mapping.tc_to_hwq.length ≠ 1) :
    ∀ st2 e, InterfaceManager.add_talker cfg dev sysOk st = some (st2, .error e) →
      e ≠ TalkerError.resourceExhausted → st2 = st := by
  intro st2 e h he
  unfold InterfaceManager.add_talker at h
  cases hasg : st.mapping.assign_and_map cfg.stream.pcp st.scheduler.traffics with
  | mk m1 res =>
    cases res with
    | none =>
      rw [hasg] at h
      dsimp only at h
      obtain ⟨_, h2⟩ := Prod.mk.injEq .. ▸ Option.some.inj h
      exact absurd (Except.error.inj h2).symm he
    | some trip =>
      obtain ⟨so, tc, q⟩ := trip
      rw [hasg] at h
      dsimp only at h
      have hunm : m1.unmap_and_free so tc q = some st.mapping :=
        assign_then_unmap st.mapping m1 cfg.stream.pcp st.scheduler.traffics
          so tc q hhwq hasg
      set t := { Traffic.scheduledOf cfg with tc := some tc } with hT
      split at h
      · -- conflict branch
        rw [hunm] at h
        dsimp only at h
        obtain ⟨h1, _⟩ := Prod.mk.injEq .. ▸ Option.some.inj h
        rw [← h1]
      · -- no conflict: the stream cannot already be scheduled, or the
        -- conflict check would have caught its own replica slot
        rename_i hc
        have htnotin : t ∉ st.scheduler.traffics := by
          intro hmem
          apply hc
          cases htr2 : st.scheduler.traffics with
          | nil =>
            rw [htr2] at hmem
            exact absurd hmem (by simp)
          | cons u0 urest =>
            rw [htr2] at hmem hresch
            exact reschedule_mem_conflicts u0 urest st.scheduler.schedule t hresch
              hmem rfl (scheduledOf_length_nonneg cfg)
        cases hres : Scheduler.reschedule (st.scheduler.traffics ++ [t]) with
        | none => rw [hres] at h; exact absurd h (by simp)
        | some sch =>
          rw [hres] at h
          dsimp only at h
          have hrm : Scheduler.remove ⟨sch, st.scheduler.traffics ++ [t]⟩ t =
              some st.scheduler := by
            unfold Scheduler.remove
            have hmem : t ∈ st.scheduler.traffics ++ [t] := by simp
            rw [if_pos hmem]
            have herase : (st.scheduler.traffics ++ [t]).erase t = st.scheduler.traffics := by
              rw [List.erase_append_right _ (by simpa using htnotin)]
              simp
            show (match Scheduler.reschedule ((st.scheduler.traffics ++ [t]).erase t) with
              | none => none
              | some sch => some ⟨sch, (st.scheduler.traffics ++ [t]).erase t⟩)
                = some st.scheduler
            rw [herase, hresch]
          split at h
          · -- device supports
            split at h
            · -- sysOk: result is ok, not an error
              obtain ⟨_, h2⟩ := Prod.mk.injEq .. ▸ Option.some.inj h
              simp at h2
            · -- system configuration failed: rollback
              rw [hrm, hunm] at h
              dsimp only at h
              obtain ⟨h1, _⟩ := Prod.mk.injEq .. ▸ Option.some.inj h
              rw [← h1]
          · -- device rejects: rollback
            rw [hrm, hunm] at h
            dsimp only at h
            obtain ⟨h1, _⟩ := Prod.mk.injEq .. ▸ Option.some.inj h
            rw [← h1]

/-- C1 witness: a fresh manager state for the 8-queue device; the
SystemConfigurator failure path restores the state exactly. -/
theorem add_talker_rollback_atomic_witness :
    Scheduler.reschedule egScheduler.traffics = some egScheduler.schedule ∧
    egMapping.tc_to_hwq.length ≠ 1 ∧
    (∀ st2 e, InterfaceManager.add_talker egConfig (fun _ => true) false
        ⟨egMapping, egScheduler⟩ = some (st2, .error e) →
      e ≠ TalkerError.resourceExhausted → st2 = ⟨egMapping, egScheduler⟩) :=
  ⟨by decide, by decide,
    add_talker_rollback_atomic egConfig (fun _ => true) false
      ⟨egMapping, egScheduler⟩ (by decide) (by decide)⟩

/-! Claim C3. -/

/-- C3 counterexample: in a mapping whose socket-prio list is [7] while the
tc and queue lists are empty, assign_and_map fails but leaves the popped
socket prio removed; nothing is pushed back. -/
theorem assign_and_map_no_pushback_cex :
    (egMappingSkewed.assign_and_map 6 []).2 = none ∧
    (egMappingSkewed.assign_and_map 6 []).1 ≠ egMappingSkewed ∧
    (egMappingSkewed.assign_and_map 6 []).1.available_socket_prios = [] := by
  decide

/-- C3 (amended): assign_and_map fails iff one of the three free lists is
empty; on failure nothing is pushed back: an empty socket-prio list leaves the
state unchanged, while a failure on a later list leaves the earlier pops in
place. -/
theorem assign_and_map_failure_characterization (m : Mapping) (pcp : ℕ)
    (traffics : List Traffic) :
    ((m.assign_and_map pcp traffics).2 = none ↔
      (m.available_socket_prios = [] ∨ m.available_tcs = [] ∨
        m.available_tx_queues = [])) ∧
    (m.available_socket_prios = [] → (m.assign_and_map pcp traffics).1 = m) ∧
    (∀ so rest, m.available_socket_prios = so :: rest → m.available_tcs = [] →
      (m.assign_and_map pcp traffics).1 = { m with available_socket_prios := rest }) ∧
    (∀ so rest tc rest2, m.available_socket_prios = so :: rest →
      m.available_tcs = tc :: rest2 → m.available_tx_queues = [] →
      (m.assign_and_map pcp traffics).1 =
        { m with available_socket_prios := rest, available_tcs := rest2 }) := by
  obtain ⟨i, bsp, bet, asp, atc, atq, ts, sp, hw⟩ := m
  rcases asp with _ | ⟨so0, rest⟩ <;> rcases atc with _ | ⟨tc0, rest2⟩ <;>
    rcases atq with _ | ⟨q0, rest3⟩ <;>
    simp_all [Mapping.assign_and_map, Mapping.assign_soprio_and_map,
      Mapping.assign_tc_and_map, Mapping.assign_queue_and_map]

/-- C3 witness: the characterization applied to the skewed mapping. -/
theorem assign_and_map_failure_characterization_witness :
    (egMappingSkewed.assign_and_map 6 []).2 = none ↔
      (egMappingSkewed.available_socket_prios = [] ∨
        egMappingSkewed.available_tcs = [] ∨
        egMappingSkewed.available_tx_queues = []) :=
  (assign_and_map_failure_characterization egMappingSkewed 6 []).1

/-! Claim C4. -/

/-- C4: Scheduler.add fails with the conflict error iff the scheduled
traffic's start or end falls inside the closed interval of a slot holding
scheduled traffic, and a conflict failure leaves the scheduler unchanged. -/
theorem scheduler_add_conflict_iff (s : Scheduler) (t : Traffic)
    (hsched : t.type = TrafficType.SCHEDULED) :
    ((∃ s2 msg, Scheduler.add s t = some (s2, some msg)) ↔
      ∃ slot ∈ s.schedule.slots, slot.traffic.type = TrafficType.SCHEDULED ∧
        (((slot.start : ℚ) ≤ (t.start : ℚ) ∧ (t.start : ℚ) ≤ (slot.end_ : ℚ)) ∨
         ((slot.start : ℚ) ≤ t.end_ ∧ t.end_ ≤ (slot.end_ : ℚ)))) ∧
    ∀ s2 msg, Scheduler.add s t = some (s2, some msg) → s2 = s := by
  have htne : t.type ≠ TrafficType.BEST_EFFORT := by
    rw [hsched]; intro hx; exact absurd hx (by decide)
  by_cases hc : s.schedule.conflicts_with_traffic t = true
  · have hch := (conflicts_with_traffic_eq_true s.schedule t).mp hc
    refine ⟨⟨fun _ => hch.2, fun _ => ?_⟩, fun s2 msg h => ?_⟩
    · exact ⟨s, "Traffic conflicts with existing schedule", by simp [Scheduler.add, hc]⟩
    · simp [Scheduler.add, hc] at h
      exact h.1.symm
  · have hnot : ¬ (t.type ≠ TrafficType.BEST_EFFORT ∧
        ∃ slot ∈ s.schedule.slots, slot.traffic.type = TrafficType.SCHEDULED ∧
          (((slot.start : ℚ) ≤ (t.start : ℚ) ∧ (t.start : ℚ) ≤ (slot.end_ : ℚ)) ∨
           ((slot.start : ℚ) ≤ t.end_ ∧ t.end_ ≤ (slot.end_ : ℚ)))) := by
      intro hx
      exact hc ((conflicts_with_traffic_eq_true s.schedule t).mpr hx)
    constructor
    · constructor
      · rintro ⟨s2, msg, h⟩
        exfalso
        unfold Scheduler.add at h
        rw [if_neg hc] at h
        cases hres : Scheduler.reschedule (s.traffics ++ [t]) <;> rw [hres] at h <;>
          simp at h
      · intro hex
        exact absurd ⟨htne, hex⟩ hnot
    · intro s2 msg h
      exfalso
      unfold Scheduler.add at h
      rw [if_neg hc] at h
      cases hres : Scheduler.reschedule (s.traffics ++ [t]) <;> rw [hres] at h <;>
        simp at h

/-- C4 witness: adding a traffic that starts inside an existing scheduled slot
does fail with the conflict error. -/
theorem scheduler_add_conflict_iff_witness :
    ∃ s2 msg, Scheduler.add egSchedulerAB egTrafficC = some (s2, some msg) :=
  (scheduler_add_conflict_iff egSchedulerAB egTrafficC (by decide)).1.mpr (by decide)

/-! Claim C2. -/

/-- C2 counterexample: adding a traffic with start 9, interval 10, length 5
to a fresh scheduler succeeds and reaches a state whose schedule does not
partition the period: the last slot ends at 14 while the period is 10. -/
theorem schedule_partition_cex :
    Reachable egMapping8G egSchedulerOverrun ∧
    (∃ t ∈ egSchedulerOverrun.traffics, t.type = TrafficType.SCHEDULED) ∧
    ¬ egSchedulerOverrun.schedule.partitions :=
  ⟨reachable_overrun, by decide, by decide⟩

/-- Core of the amended C2: a successful reschedule of a traffic list whose
scheduled members each have nonnegative length (an invariant of Traffic
construction) and fit inside their own interval produces a schedule
partitioning [0, period), with period the lcm of the intervals. -/
theorem reschedule_partitions (t0 : Traffic) (rest : List Traffic) (sch : Schedule)
    (h : Scheduler.reschedule (t0 :: rest) = some sch)
    (hsched : ∃ t ∈ t0 :: rest, t.type = TrafficType.SCHEDULED)
    (hfit : ∀ t ∈ t0 :: rest, t.type = TrafficType.SCHEDULED →
      0 ≤ t.length ∧ (t.start : ℚ) + t.length ≤ (t.interval : ℚ)) :
    sch.partitions ∧
    sch.period = lcm (((t0 :: rest).filter
      (fun u => decide (u.type = TrafficType.SCHEDULED))).map (fun u => u.interval)) := by
  obtain ⟨tS, htS, htyS⟩ := hsched
  have hne : ¬(rest = [] ∧ t0.type = TrafficType.BEST_EFFORT) := by
    rintro ⟨h1, h2⟩
    subst h1
    simp at htS
    rw [htS] at htyS
    rw [h2] at htyS
    exact absurd htyS (by simp)
  obtain ⟨hz, hperiod, gs, pads, f, last, hgs, hsort, hpw, hlast, hbranch⟩ :=
    reschedule_some_general t0 rest sch h hne
  have hgsfacts : ∀ sl ∈ gs, sl.start ≤ sl.end_ ∧ sl.end_ ≤ (sch.period : ℤ) := by
    intro sl hsl
    obtain ⟨u, hu, hslu⟩ := List.mem_flatMap.mp (hgs.subset hsl)
    obtain ⟨htr, k, hk, hmk⟩ := trafficSlots_mem _ _ _ hslu
    have humem := List.mem_filter.mp hu
    have hufit := hfit u humem.1 (by simpa using humem.2)
    have huI : u.interval ≠ 0 := hz u hu
    have hdvd : u.interval ∣ sch.period := by
      rw [hperiod]
      exact dvd_lcm_of_mem _ _ (List.mem_map.mpr ⟨u, hu, rfl⟩)
    have hkk : (k + 1) * u.interval ≤ sch.period := by
      have h1 : k + 1 ≤ sch.period / u.interval := hk
      have := (Nat.le_div_iff_mul_le (Nat.pos_of_ne_zero huI)).mp h1
      exact this
    have hfl1 : 0 ≤ ⌊u.length⌋ := Int.le_floor.mpr (by exact_mod_cast hufit.1)
    have hfl2 : ⌊u.length⌋ ≤ (u.interval : ℤ) - (u.start : ℤ) := by
      have hle : u.length ≤ (((u.interval : ℤ) - (u.start : ℤ) : ℤ) : ℚ) := by
        push_cast
        linarith [hufit.2]
      have := Int.floor_le_floor hle
      rwa [Int.floor_intCast] at this
    have hstart : sl.start = ((u.start + u.interval * k : ℕ) : ℤ) := by
      rw [hmk]
      exact pyInt_natCast _
    have hend : sl.end_ = ⌊u.length⌋ + ((u.start + u.interval * k : ℕ) : ℤ) := by
      rw [hmk]
      show pyInt (((u.start + u.interval * k : ℕ) : ℚ) + u.length) = _
      rw [pyInt_nonneg_floor]
      · rw [add_comm ((_ : ℕ) : ℚ), Int.floor_add_nat]
      · have h0 : (0 : ℚ) ≤ ((u.start + u.interval * k : ℕ) : ℚ) := by positivity
        linarith [hufit.1]
    rw [hstart, hend]
    constructor
    · push_cast
      omega
    · have hcast : ((u.start + u.interval * k : ℕ) : ℤ) + ((u.interval : ℤ) - u.start) ≤
          (sch.period : ℤ) := by
        push_cast
        have : ((k + 1) * u.interval : ℕ) ≤ (sch.period : ℕ) := hkk
        push_cast at this
        linarith
      omega
  have hchain : chainFrom 0 (padView t0 0 gs) f := padWalk_chain t0 gs 0 pads f hpw
  have hnn : ∀ sl ∈ gs, sl.start ≤ sl.end_ := fun sl hsl => (hgsfacts sl hsl).1
  have hsorteq : sortSlots (gs ++ pads) = padView t0 0 gs := by
    have h1 : sortSlots (gs ++ pads)
        = pads.foldl (fun acc p => insertSlot p acc) (sortSlots gs) := by
      unfold sortSlots
      rw [List.foldl_append]
    rw [h1, sortSlots_of_sorted gs hsort]
    exact padWalk_foldl_insert t0 gs hnn 0 pads f hpw
  rw [hsorteq] at hlast
  have hAne : padView t0 0 gs ≠ [] := by
    intro h0
    rw [h0] at hlast
    simp at hlast
  obtain ⟨last2, hl2, he2⟩ := chainFrom_getLast _ _ _ hchain hAne
  have hlasteq : last2 = last := by
    rw [hl2] at hlast
    exact Option.some.inj hlast
  subst hlasteq
  have hfP : f ≤ (sch.period : ℤ) := by
    rcases padWalk_final t0 gs 0 pads f hpw with ⟨hgs0, _, hf0⟩ | ⟨lastg, hlg, hfg⟩
    · exact absurd ((padView_eq_nil_iff t0 0 gs).mpr hgs0) hAne
    · rw [← hfg]
      exact (hgsfacts lastg (List.mem_of_mem_getLast? hlg)).2
  refine ⟨⟨?_, ?_⟩, hperiod⟩
  · rcases hbranch with ⟨_, hb⟩ | ⟨_, hb⟩ <;> rw [hb, hsorteq] <;> simp [hAne]
  · rcases hbranch with ⟨hlt, hb⟩ | ⟨hlt, hb⟩
    · rw [hb, hsorteq]
      have hclosing : (Slot.make ((last2.end_ : ℤ) : ℚ) ((sch.period : ℕ) : ℚ) t0).start
          = last2.end_ ∧
          (Slot.make ((last2.end_ : ℤ) : ℚ) ((sch.period : ℕ) : ℚ) t0).end_
          = (sch.period : ℤ) := by
        constructor
        · exact pyInt_intCast _
        · exact pyInt_natCast _
      have := chainFrom_append_one (padView t0 0 gs) 0 f
        (Slot.make ((last2.end_ : ℤ) : ℚ) ((sch.period : ℕ) : ℚ) t0) hchain
        (by rw [hclosing.1, he2])
      rwa [hclosing.2] at this
    · rw [hb, hsorteq]
      have : f = (sch.period : ℤ) := by
        rw [← he2] at hfP ⊢
        omega
      rwa [this] at hchain

/-- C2 (amended): in every reachable scheduler state with at least one
scheduled traffic, provided every scheduled traffic fits inside its own
interval (start + length <= interval; its length is nonnegative by
construction), the schedule is a partition of [0, period): the slots are
contiguous, the first starts at 0, the last ends at the period, and the
period is the lcm of the scheduled intervals. -/
theorem schedule_partitions_of_fits (m : Mapping) (s : Scheduler)
    (h : Reachable m s)
    (hsched : ∃ t ∈ s.traffics, t.type = TrafficType.SCHEDULED)
    (hfit : ∀ t ∈ s.traffics, t.type = TrafficType.SCHEDULED →
      0 ≤ t.length ∧ (t.start : ℚ) + t.length ≤ (t.interval : ℚ)) :
    s.schedule.partitions ∧
    s.schedule.period = lcm ((s.traffics.filter
      (fun u => decide (u.type = TrafficType.SCHEDULED))).map (fun u => u.interval)) := by
  have hres := reachable_reschedule m s h
  cases htr : s.traffics with
  | nil =>
    rw [htr] at hres
    exact absurd hres (by simp [Scheduler.reschedule])
  | cons t0 rest =>
    rw [htr] at hres hsched hfit
    exact reschedule_partitions t0 rest s.schedule hres hsched hfit

/-- C2 witness: the amended theorem applied to the reachable state holding
egTrafficA (start 0, interval 10, length 5). -/
theorem schedule_partitions_of_fits_witness :
    (∃ t ∈ egSchedulerFit.traffics, t.type = TrafficType.SCHEDULED) ∧
    egSchedulerFit.schedule.partitions := by
  refine ⟨by decide, ?_⟩
  refine (schedule_partitions_of_fits egMapping8G egSchedulerFit reachable_fit
    (by decide) ?_).1
  intro t ht htype
  have ht' : t = egBestEffort ∨ t = egTrafficA := by simpa [egSchedulerFit] using ht
  rcases ht' with h1 | h1
  · rw [h1] at htype
    exact absurd htype (by decide)
  · rw [h1]
    norm_num [egTrafficA]

/-! Claim C6. -/

/-- C6: when the traffics list headed by the best-effort traffic is
rescheduled successfully, a scheduled traffic T occurring exactly once
yields exactly period / interval slots carrying T, located at the starts
start + interval * k for k < period / interval. -/
theorem reschedule_replica_slots (t0 : Traffic) (rest : List Traffic)
    (sch : Schedule) (t : Traffic)
    (h : Scheduler.reschedule (t0 :: rest) = some sch)
    (hbe : t0.type = TrafficType.BEST_EFFORT)
    (ht : t ∈ t0 :: rest) (htype : t.type = TrafficType.SCHEDULED)
    (hcount : (t0 :: rest).count t = 1) :
    sch.slots.countP (fun sl => decide (sl.traffic = t)) = sch.period / t.interval ∧
    ((sch.slots.filter (fun sl => decide (sl.traffic = t))).map (fun sl => sl.start)).Perm
      ((List.range (sch.period / t.interval)).map
        (fun k => ((t.start + t.interval * k : ℕ) : ℤ))) := by
  have ht0 : t ≠ t0 := by
    intro he
    rw [he, hbe] at htype
    exact absurd htype (by simp)
  have hne : ¬(rest = [] ∧ t0.type = TrafficType.BEST_EFFORT) := by
    rintro ⟨h1, _⟩
    subst h1
    simp at ht
    exact ht0 ht
  obtain ⟨hz, hperiod, gs, pads, f, last, hgs, hsort, hpw, hlast, hbranch⟩ :=
    reschedule_some_general t0 rest sch h hne
  have hslots : ∃ cl : List Slot, (∀ c ∈ cl, c.traffic = t0) ∧
      sch.slots.Perm (gs ++ pads ++ cl) := by
    rcases hbranch with ⟨_, hb⟩ | ⟨_, hb⟩
    · refine ⟨[Slot.make ((last.end_ : ℤ) : ℚ) ((sch.period : ℕ) : ℚ) t0], ?_, ?_⟩
      · intro c hc
        simp at hc
        rw [hc]
        rfl
      · rw [hb]
        exact (sortSlots_perm _).append_right _
    · refine ⟨[], by simp, ?_⟩
      rw [hb]
      simpa using sortSlots_perm _
  obtain ⟨cl, hcl, hslotsp⟩ := hslots
  have hfil : (sch.slots.filter (fun sl => decide (sl.traffic = t))).Perm
      ((gs ++ pads ++ cl).filter (fun sl => decide (sl.traffic = t))) :=
    hslotsp.filter _
  have hpads0 : pads.filter (fun sl => decide (sl.traffic = t)) = [] := by
    rw [List.filter_eq_nil_iff]
    intro sl hsl
    have := (padWalk_pads t0 gs 0 pads f hpw sl hsl).1
    simp [this]
    intro he
    exact ht0 he.symm
  have hcl0 : cl.filter (fun sl => decide (sl.traffic = t)) = [] := by
    rw [List.filter_eq_nil_iff]
    intro sl hsl
    have := hcl sl hsl
    simp [this]
    intro he
    exact ht0 he.symm
  have htmem : t ∈ (t0 :: rest).filter (fun u => decide (u.type = TrafficType.SCHEDULED)) :=
    List.mem_filter.mpr ⟨ht, by simp [htype]⟩
  obtain ⟨l1, l2, hdec⟩ := List.append_of_mem htmem
  have hcnt1 : ((t0 :: rest).filter
      (fun u => decide (u.type = TrafficType.SCHEDULED))).count t = 1 := by
    rw [List.count_filter (by simp [htype])]
    exact hcount
  have hnl : t ∉ l1 ∧ t ∉ l2 := by
    rw [hdec, List.count_append, List.count_cons_self] at hcnt1
    constructor
    · exact List.count_eq_zero.mp (by omega)
    · exact List.count_eq_zero.mp (by omega)
  have hgsf : (gs.filter (fun sl => decide (sl.traffic = t))).Perm
      (trafficSlots sch.period t) := by
    refine (hgs.filter _).trans ?_
    rw [List.filter_flatMap, hdec, List.flatMap_append, List.flatMap_cons]
    have hother : ∀ u : Traffic, u ≠ t →
        (trafficSlots sch.period u).filter (fun sl => decide (sl.traffic = t)) = [] := by
      intro u hu
      rw [List.filter_eq_nil_iff]
      intro sl hsl
      have := (trafficSlots_mem _ _ _ hsl).1
      simp [this]
      intro he
      exact hu he
    have hl1 : l1.flatMap (fun u =>
        (trafficSlots sch.period u).filter (fun sl => decide (sl.traffic = t))) = [] := by
      rw [List.flatMap_eq_nil_iff]
      intro u hu
      exact hother u (fun he => hnl.1 (he ▸ hu))
    have hl2 : l2.flatMap (fun u =>
        (trafficSlots sch.period u).filter (fun sl => decide (sl.traffic = t))) = [] := by
      rw [List.flatMap_eq_nil_iff]
      intro u hu
      exact hother u (fun he => hnl.2 (he ▸ hu))
    have hself : (trafficSlots sch.period t).filter
        (fun sl => decide (sl.traffic = t)) = trafficSlots sch.period t := by
      rw [List.filter_eq_self]
      intro sl hsl
      simp [(trafficSlots_mem _ _ _ hsl).1]
    rw [hl1, hl2, hself]
    simp
  have hfull : (sch.slots.filter (fun sl => decide (sl.traffic = t))).Perm
      (trafficSlots sch.period t) := by
    refine hfil.trans ?_
    rw [List.filter_append, List.filter_append, hpads0, hcl0, List.append_nil,
      List.append_nil]
    exact hgsf
  have hmapstart : (trafficSlots sch.period t).map (fun sl => sl.start) =
      (List.range (sch.period / t.interval)).map
        (fun k => ((t.start + t.interval * k : ℕ) : ℤ)) := by
    unfold trafficSlots
    rw [List.map_map]
    refine List.map_congr_left ?_
    intro k hk
    show (Slot.make _ _ t).start = _
    unfold Slot.make
    exact pyInt_natCast _
  constructor
  · rw [List.countP_eq_length_filter, hfull.length_eq]
    unfold trafficSlots
    simp
  · exact (hfull.map _).trans (by rw [hmapstart])

/-- C6 witness: egTrafficA in the rescheduled pair [best effort, A] occupies
exactly one slot, at start 0. -/
theorem reschedule_replica_slots_witness :
    egSchedulerFit.schedule.slots.countP
        (fun sl => decide (sl.traffic = egTrafficA)) =
      egSchedulerFit.schedule.period / egTrafficA.interval ∧
    ((egSchedulerFit.schedule.slots.filter
        (fun sl => decide (sl.traffic = egTrafficA))).map (fun sl => sl.start)).Perm
      ((List.range (egSchedulerFit.schedule.period / egTrafficA.interval)).map
        (fun k => ((egTrafficA.start + egTrafficA.interval * k : ℕ) : ℤ))) := by
  have h := reschedule_replica_slots egBestEffort [egTrafficA]
    egSchedulerFit.schedule egTrafficA
    (by
      have := reachable_reschedule egMapping8G egSchedulerFit reachable_fit
      simpa using this)
    (by decide) (by decide) (by decide) (by decide)
  exact h

/-! Claim C7. -/

/-- C7 counterexample: a configuration whose txoffset equals the interval is
accepted, not rejected. -/
theorem configuration_txoffset_eq_interval_accepted :
    Configuration.make egInterface ⟨"aa:bb:cc:dd:ee:ff", 3, 6, 10, none⟩ ⟨10, 1522⟩ ≠
      none := by
  decide

/-- C7 (amended): Configuration construction is rejected iff txoffset exceeds
the interval; the boundary txoffset = interval is accepted. -/
theorem configuration_rejects_iff (i : Interface) (s : StreamConfiguration)
    (t : TrafficSpecification) :
    (Configuration.make i s t = none ↔ t.interval < s.txoffset) ∧
    (s.txoffset ≤ t.interval → Configuration.make i s t = some ⟨i, s, t⟩) := by
  unfold Configuration.make
  constructor
  · split <;> rename_i h <;> simp [h]
  · intro hle
    rw [if_neg (by omega)]

/-- C7 witness: the characterization applied at the boundary txoffset =
interval. -/
theorem configuration_rejects_iff_witness :
    Configuration.make egInterface ⟨"aa:bb:cc:dd:ee:ff", 3, 6, 10, none⟩ ⟨10, 1522⟩ =
      some ⟨egInterface, ⟨"aa:bb:cc:dd:ee:ff", 3, 6, 10, none⟩, ⟨10, 1522⟩⟩ :=
  (configuration_rejects_iff egInterface ⟨"aa:bb:cc:dd:ee:ff", 3, 6, 10, none⟩
    ⟨10, 1522⟩).2 (by decide)

/-! Claim C8. -/

/-- C8 counterexample: 1 byte at 3 Gbps gives length 8/3 ns: not equal to any
integer, in particular not to floor(size * 8 * 1e9 / rate) = 2, and the
traffic end is start plus 8/3, not start plus that floor. -/
theorem traffic_length_not_floor_cex :
    (Traffic.scheduledOf egConfig3G).length = 8 / 3 ∧
    (¬ ∃ z : ℤ, (Traffic.scheduledOf egConfig3G).length = (z : ℚ)) ∧
    (Traffic.scheduledOf egConfig3G).length ≠
      ((1 * 8 * s_to_ns / (3 * s_to_ns) : ℕ) : ℚ) ∧
    (Traffic.scheduledOf egConfig3G).end_ ≠
      (egConfig3G.stream.txoffset : ℚ) + ((1 * 8 * s_to_ns / (3 * s_to_ns) : ℕ) : ℚ) := by
  have hlen : (Traffic.scheduledOf egConfig3G).length = 8 / 3 := by
    norm_num [Traffic.scheduledOf, egConfig3G, egInterface3G, s_to_ns, Bytes_to_bits]
  have hend : (Traffic.scheduledOf egConfig3G).end_ = 8 / 3 := by
    norm_num [Traffic.scheduledOf, egConfig3G, egInterface3G, s_to_ns, Bytes_to_bits]
  refine ⟨hlen, ?_, ?_, ?_⟩
  · rintro ⟨z, hz⟩
    rw [hlen] at hz
    have h3 : (8 : ℚ) = 3 * (z : ℚ) := by
      field_simp at hz
      linarith
    have h3' : (8 : ℤ) = 3 * z := by exact_mod_cast h3
    omega
  · rw [hlen]
    norm_num [s_to_ns]
  · rw [hend]
    norm_num [egConfig3G, s_to_ns]

/-- C8 (amended): the computed length is the exact quotient
size * 8 * 1e9 / rate (an integer only when rate divides size * 8 * 1e9, in
which case it is that integer), and end = start + length; truncation to
integer nanoseconds happens only at Slot construction. -/
theorem traffic_length_exact (cfg : Configuration) (hrate : 0 < cfg.interface.rate) :
    (Traffic.scheduledOf cfg).length
        = ((cfg.traffic.size * Bytes_to_bits * s_to_ns : ℕ) : ℚ) / (cfg.interface.rate : ℚ) ∧
    (Traffic.scheduledOf cfg).end_
        = (cfg.stream.txoffset : ℚ) + (Traffic.scheduledOf cfg).length ∧
    (cfg.interface.rate ∣ cfg.traffic.size * Bytes_to_bits * s_to_ns →
      (Traffic.scheduledOf cfg).length
        = ((cfg.traffic.size * Bytes_to_bits * s_to_ns / cfg.interface.rate : ℕ) : ℚ)) := by
  have hr : ((cfg.interface.rate : ℕ) : ℚ) ≠ 0 := by
    exact_mod_cast hrate.ne'
  have hs : ((s_to_ns : ℕ) : ℚ) ≠ 0 := by norm_num [s_to_ns]
  have hlen : (Traffic.scheduledOf cfg).length
      = ((cfg.traffic.size * Bytes_to_bits * s_to_ns : ℕ) : ℚ) / (cfg.interface.rate : ℚ) := by
    show ((cfg.traffic.size * Bytes_to_bits : ℕ) : ℚ) / ((cfg.interface.rate : ℚ) / (s_to_ns : ℚ))
        = _
    rw [div_div_eq_mul_div]
    push_cast
    ring_nf
  refine ⟨hlen, rfl, fun hdvd => ?_⟩
  rw [hlen, Nat.cast_div hdvd hr]

/-- C8 witness: at 1 Gbps with 1522-byte frames the exact quotient is the
integer 12176. -/
theorem traffic_length_exact_witness :
    0 < egConfig.interface.rate ∧
    (Traffic.scheduledOf egConfig).length
      = ((egConfig.traffic.size * Bytes_to_bits * s_to_ns : ℕ) : ℚ) /
          (egConfig.interface.rate : ℚ) :=
  ⟨by decide, (traffic_length_exact egConfig (by decide)).1⟩

/-! Claim C9. -/

/-- C9: for the I226, a schedule with no multiple gate opens is always
supported; one with multiple opens is supported iff the exclusive
multi-queue-per-traffic-class mapping is in use and there are at most three
traffics (best effort included) and at most four slots. -/
theorem i226_supports_schedule_iff (excl : Bool) (traffics : List Traffic)
    (sch : Schedule) :
    (sch.opens_gate_multiple_times_per_cycle = false →
      IntelI226.supports_schedule excl traffics sch = true) ∧
    (sch.opens_gate_multiple_times_per_cycle = true →
      (IntelI226.supports_schedule excl traffics sch = true ↔
        excl = true ∧ traffics.length ≤ 3 ∧ sch.slots.length ≤ 4)) := by
  unfold IntelI226.supports_schedule
  constructor
  · intro h
    simp [h]
  · intro h
    cases excl <;> simp [h]

/-- C9 witness: the A-B-A schedule opens a gate twice; with the exclusive
mapping, three traffics and three slots it is supported. -/
theorem i226_supports_schedule_iff_witness :
    IntelI226.supports_schedule true [egBestEffort, egTrafficA, egTrafficB]
      egScheduleMultiOpen = true :=
  ((i226_supports_schedule_iff true [egBestEffort, egTrafficA, egTrafficB]
      egScheduleMultiOpen).2 (by decide)).mpr (by decide)

end Detd
